import Mathlib

set_option maxHeartbeats 1000000

open List

/-!
Verification development for the fpl-predictor squad engine.

The definitions below are a shallow embedding of the Python sources:

* `fpl_predictor/squad.py` — the `Squad` class (roster with budget cap,
  per-position limits, duplicate check and per-team quota) and its four
  exception types, plus `first_team` / `captain` / `vice_captain`;
* `fpl_predictor/optimiser.py` — `get_perms` / `subset_perms` /
  `squad_optimisations` / `optimiser` (the swap optimizer);
* `fpl_predictor/squad_builder.py` — `SquadBuilder.build_team` (the degrade
  recursion), `SquadBuilder.pick_first_team`, `SquadBuilder._player_pool`;
* `fpl_predictor/player_scorer.py` — `PlayerScorer.aggregate_master`.

Player prices and scores are Python numbers used only with `+`, `-` and
comparisons in the squad/optimiser code, so they are modelled as integers
(exact arithmetic); the scorer's aggregation, which divides, is modelled over
the rationals.  Pandas DataFrames of players are modelled as lists of `Player`
records; pandas sorting is modelled by a stable insertion sort on the same
keys (pandas `sort_values` leaves the relative order of tied keys unspecified,
so any fixed order among ties is a faithful refinement).
-/

/-- The four player positions of `Squad.limits` ({"FWD": 3, "MID": 5,
"DEF": 5, "GK": 2} in `squad.py`). -/
inductive Position where
  | GK
  | DEF
  | MID
  | FWD
deriving DecidableEq, Repr, Fintype

/-- One row of the `Squad.selected` DataFrame: the keyword arguments of
`Squad.add_player` (`squad.py` line 77): code, name, position, value, score,
score_per_value, team. -/
structure Player where
  code : Int
  name : String
  position : Position
  value : Int
  score : Int
  score_per_value : Int
  team : String
deriving DecidableEq, Repr

/-- Insert `a` into `l` before the first element `b` with `le a b`. -/
def insertLe (le : α → α → Bool) (a : α) : List α → List α
  | [] => [a]
  | b :: bs => if le a b then a :: b :: bs else b :: insertLe le a bs

/-- Stable insertion sort, used to model every pandas `sort_values` call. -/
def insSort (le : α → α → Bool) : List α → List α
  | [] => []
  | a :: as => insertLe le a (insSort le as)

theorem insertLe_perm (le : α → α → Bool) (a : α) (l : List α) :
    insertLe le a l ~ a :: l := by
  induction l with
  | nil => exact List.Perm.refl _
  | cons b bs ih =>
    unfold insertLe
    split
    · exact List.Perm.refl _
    · exact (ih.cons b).trans (List.Perm.swap a b bs)

theorem insSort_perm (le : α → α → Bool) (l : List α) : insSort le l ~ l := by
  induction l with
  | nil => exact List.Perm.refl _
  | cons a as ih => exact (insertLe_perm le a (insSort le as)).trans (ih.cons a)

/-- Number of players of `s` whose position is `q`
(`len(self.selected.loc[self.selected["position"] == position])`). -/
def posCount (s : List Player) (q : Position) : ℕ :=
  s.countP (fun p => decide (p.position = q))

/-- Number of players of `s` belonging to team `t`
(the entry of `df["team"].value_counts()` for `t`). -/
def teamCount (s : List Player) (t : String) : ℕ :=
  s.countP (fun p => decide (p.team = t))

/-- The `code` column of the squad; `Squad.selected_list` is this list sorted,
which is only ever used for membership tests. -/
def codes (s : List Player) : List Int :=
  s.map Player.code

/-- `Squad.total_value`: the sum of the `value` column. -/
def total_value (s : List Player) : Int :=
  (s.map Player.value).sum

/-- `Squad.total_score`: the sum of the `score` column. -/
def total_score (s : List Player) : Int :=
  (s.map Player.score).sum

/-- `Squad.total_score_per_val`: the sum of the `score_per_value` column. -/
def total_score_per_val (s : List Player) : Int :=
  (s.map Player.score_per_value).sum

namespace Squad

/-- `Squad.limits = {"FWD": 3, "MID": 5, "DEF": 5, "GK": 2}`. -/
def limits : Position → ℕ
  | .FWD => 3
  | .MID => 5
  | .DEF => 5
  | .GK => 2

/-- `Squad.cap = 1000`. -/
def cap : Int := 1000

/-- `Squad.available_budget = 1000 - self.total_value`. -/
def available_budget (s : List Player) : Int := 1000 - total_value s

/-- The four exception classes of `squad.py` raised by `Squad.add_player`. -/
inductive SquadError where
  | PositionFilled
  | NotEnoughMoney
  | AlreadySelected
  | MaxedOutTeam
deriving DecidableEq, Repr

/-- Sort key of `self.selected.sort_values(by=["score", "score_per_value",
"value"], ascending=[False, False, True])` in `Squad.add_player`. -/
def squadSortLe (a b : Player) : Bool :=
  if a.score ≠ b.score then decide (b.score < a.score)
  else if a.score_per_value ≠ b.score_per_value then
    decide (b.score_per_value < a.score_per_value)
  else decide (a.value ≤ b.value)

/-- `Squad.maxed_out_teams`: the empty list when fewer than 3 players are
selected, otherwise the teams with `value_counts` at least 3. -/
def maxed_out_teams (s : List Player) : List String :=
  if s.length < 3 then []
  else ((s.map Player.team).dedup).filter (fun t => decide (3 ≤ teamCount s t))

/-- `Squad.add_player` (`squad.py` lines 77-92): the four guards are evaluated
in source order — position capacity, then budget, then duplicate code, then
team quota — and the first violated one raises; otherwise the player row is
appended and the squad re-sorted. -/
def add_player (s : List Player) (p : Player) : Except SquadError (List Player) :=
  if posCount s p.position = limits p.position then .error .PositionFilled
  else if cap < total_value s + p.value then .error .NotEnoughMoney
  else if p.code ∈ codes s then .error .AlreadySelected
  else if p.team ∈ maxed_out_teams s then .error .MaxedOutTeam
  else .ok (insSort squadSortLe (s ++ [p]))

end Squad

/-- The Roster invariants of the spec: total price within the cap, every
position within its capacity, no duplicate identifiers, and no team holding
more than 3 players. -/
def SquadInv (s : List Player) : Prop :=
  total_value s ≤ Squad.cap ∧
  (∀ q : Position, posCount s q ≤ Squad.limits q) ∧
  (codes s).Nodup ∧
  (∀ p ∈ s, teamCount s p.team ≤ 3)

instance (s : List Player) : Decidable (SquadInv s) := by
  unfold SquadInv; infer_instance

/-- State of the squad after a sequence of `add_player` attempts starting from
`s`; a raising call leaves the squad unchanged, because `Squad.add_player`
raises before the `self.selected = ...` assignment. -/
def add_sequence (s : List Player) (ps : List Player) : List Player :=
  ps.foldl
    (fun cur p =>
      match Squad.add_player cur p with
      | .ok nxt => nxt
      | .error _ => cur)
    s

theorem posCount_perm {l₁ l₂ : List Player} (h : l₁ ~ l₂) (q : Position) :
    posCount l₁ q = posCount l₂ q :=
  h.countP_eq _

theorem teamCount_perm {l₁ l₂ : List Player} (h : l₁ ~ l₂) (t : String) :
    teamCount l₁ t = teamCount l₂ t :=
  h.countP_eq _

theorem total_value_perm {l₁ l₂ : List Player} (h : l₁ ~ l₂) :
    total_value l₁ = total_value l₂ :=
  (h.map _).sum_eq

theorem SquadInv_perm {l₁ l₂ : List Player} (h : l₁ ~ l₂) :
    SquadInv l₁ ↔ SquadInv l₂ := by
  unfold SquadInv
  constructor
  · rintro ⟨h1, h2, h3, h4⟩
    refine ⟨total_value_perm h ▸ h1, ?_, ((h.map _).nodup_iff).mp h3, ?_⟩
    · intro q; exact posCount_perm h q ▸ h2 q
    · intro p hp
      exact teamCount_perm h p.team ▸ h4 p (h.mem_iff.mpr hp)
  · rintro ⟨h1, h2, h3, h4⟩
    refine ⟨total_value_perm h ▸ h1, ?_, ((h.map _).nodup_iff).mpr h3, ?_⟩
    · intro q; exact posCount_perm h q ▸ h2 q
    · intro p hp
      exact teamCount_perm h p.team ▸ h4 p (h.mem_iff.mp hp)

theorem posCount_append (s₁ s₂ : List Player) (q : Position) :
    posCount (s₁ ++ s₂) q = posCount s₁ q + posCount s₂ q :=
  List.countP_append _ _ _

theorem teamCount_append (s₁ s₂ : List Player) (t : String) :
    teamCount (s₁ ++ s₂) t = teamCount s₁ t + teamCount s₂ t :=
  List.countP_append _ _ _

theorem total_value_append (s₁ s₂ : List Player) :
    total_value (s₁ ++ s₂) = total_value s₁ + total_value s₂ := by
  simp [total_value]

/-- Any team missing from `maxed_out_teams` has at most 2 selected players. -/
theorem teamCount_le_two_of_not_maxed {s : List Player} {t : String}
    (h : t ∉ Squad.maxed_out_teams s) : teamCount s t ≤ 2 := by
  unfold Squad.maxed_out_teams at h
  split at h
  · next hlen =>
    calc teamCount s t ≤ s.length := List.countP_le_length _
    _ ≤ 2 := by omega
  · by_contra hgt
    apply h
    have hcnt : 3 ≤ teamCount s t := by omega
    have hpos : 0 < teamCount s t := by omega
    obtain ⟨p, hp, hpt⟩ := List.countP_pos_iff.mp hpos
    have hpt' : p.team = t := of_decide_eq_true hpt
    refine List.mem_filter.mpr ⟨List.mem_dedup.mpr ?_, by simpa using hcnt⟩
    exact hpt' ▸ List.mem_map_of_mem Player.team hp

theorem add_player_ok_perm {s : List Player} {p : Player} {s' : List Player}
    (h : Squad.add_player s p = .ok s') : s' ~ s ++ [p] := by
  unfold Squad.add_player at h
  split at h; · exact Except.noConfusion h
  split at h; · exact Except.noConfusion h
  split at h; · exact Except.noConfusion h
  split at h; · exact Except.noConfusion h
  cases h
  exact insSort_perm _ _

/-- A successful `add_player` preserves all four Roster invariants. -/
theorem add_player_preserves_inv {s : List Player} {p : Player} {s' : List Player}
    (hinv : SquadInv s) (h : Squad.add_player s p = .ok s') : SquadInv s' := by
  obtain ⟨hcap, hpos, hnd, hteam⟩ := hinv
  have hperm := add_player_ok_perm h
  rw [SquadInv_perm hperm]
  unfold Squad.add_player at h
  split at h
  · exact Except.noConfusion h
  next hposne =>
  split at h
  · exact Except.noConfusion h
  next hbud =>
  split at h
  · exact Except.noConfusion h
  next hdup =>
  split at h
  · exact Except.noConfusion h
  next hmax =>
  refine ⟨?_, ?_, ?_, ?_⟩
  · rw [total_value_append]
    simp only [total_value, List.map_cons, List.map_nil, List.sum_cons, List.sum_nil,
      add_zero]
    have hb : ¬ Squad.cap < total_value s + p.value := hbud
    exact not_lt.mp hb
  · intro q
    rw [posCount_append]
    rcases eq_or_ne p.position q with rfl | hq
    · have h1 : posCount s p.position < Squad.limits p.position := by
        have := hpos p.position
        omega
      have h2 : posCount [p] p.position ≤ 1 := List.countP_le_length _
      omega
    · have h2 : posCount [p] q = 0 := by
        simp [posCount, List.countP_cons, hq]
      have := hpos q
      omega
  · have hc : codes (s ++ [p]) = codes s ++ [p.code] := by simp [codes]
    rw [hc]
    refine List.Nodup.append hnd (List.nodup_singleton _) ?_
    intro x hx hx'
    rcases List.mem_singleton.mp hx' with rfl
    exact hdup hx
  · intro x hx
    rw [teamCount_append]
    have hle2 : teamCount s p.team ≤ 2 := teamCount_le_two_of_not_maxed hmax
    rcases List.mem_append.mp hx with hx | hx
    · rcases eq_or_ne x.team p.team with ht | ht
      · have h1 : teamCount [p] x.team ≤ 1 := List.countP_le_length _
        have h2 : teamCount s x.team ≤ 2 := by rw [ht]; exact hle2
        omega
      · have h1 : teamCount [p] x.team = 0 := by
          simp [teamCount, List.countP_cons, ht.symm]
        have := hteam x hx
        omega
    · rcases List.mem_singleton.mp hx with rfl
      have h1 : teamCount [x] x.team ≤ 1 := List.countP_le_length _
      omega

/-- The empty squad (`Squad.__init__`) satisfies all invariants. -/
theorem SquadInv_nil : SquadInv [] := by decide

theorem add_sequence_inv (s : List Player) (hs : SquadInv s) (ps : List Player) :
    SquadInv (add_sequence s ps) := by
  induction ps generalizing s with
  | nil => exact hs
  | cons p ps ih =>
    unfold add_sequence
    simp only [List.foldl_cons]
    cases hadd : Squad.add_player s p with
    | ok s' => exact ih s' (add_player_preserves_inv hs hadd)
    | error e => exact ih s hs

/-- C1: starting from an empty Roster, after any sequence of `add_player`
attempts (in particular after any sequence of successful `add` calls — failing
calls raise before mutating and so leave the squad unchanged) the Roster
satisfies all four invariants: total price at most the cap of 1000, each
position's count at most its capacity ({GK:2, DEF:5, MID:5, FWD:3}), no
duplicate codes, and no team with more than 3 selected players. -/
theorem c1_invariants_hold (ps : List Player) : SquadInv (add_sequence [] ps) :=
  add_sequence_inv [] SquadInv_nil ps

/-- C4: the failure conditions of `Squad.add_player` are evaluated in the
fixed source order — position capacity, then budget, then duplicate code, then
team quota — and exactly the first violated condition is reported; when none
is violated the player is added. -/
theorem c4_failure_order (s : List Player) (p : Player) :
    (posCount s p.position = Squad.limits p.position →
      Squad.add_player s p = .error .PositionFilled) ∧
    (posCount s p.position ≠ Squad.limits p.position →
      Squad.cap < total_value s + p.value →
      Squad.add_player s p = .error .NotEnoughMoney) ∧
    (posCount s p.position ≠ Squad.limits p.position →
      ¬ Squad.cap < total_value s + p.value →
      p.code ∈ codes s →
      Squad.add_player s p = .error .AlreadySelected) ∧
    (posCount s p.position ≠ Squad.limits p.position →
      ¬ Squad.cap < total_value s + p.value →
      p.code ∉ codes s →
      p.team ∈ Squad.maxed_out_teams s →
      Squad.add_player s p = .error .MaxedOutTeam) ∧
    (posCount s p.position ≠ Squad.limits p.position →
      ¬ Squad.cap < total_value s + p.value →
      p.code ∉ codes s →
      p.team ∉ Squad.maxed_out_teams s →
      Squad.add_player s p = .ok (insSort Squad.squadSortLe (s ++ [p]))) := by
  refine ⟨?_, ?_, ?_, ?_, ?_⟩ <;>
    · intros
      simp [Squad.add_player, *]

/-- A squad of three same-team players worth 1000 in total, with both
goalkeeper slots taken. -/
def c4Squad : List Player :=
  [⟨1, "a", .GK, 300, 10, 1, "T"⟩,
   ⟨2, "b", .GK, 300, 9, 1, "T"⟩,
   ⟨3, "c", .DEF, 400, 8, 1, "T"⟩]

/-- A goalkeeper violating all four conditions at once against `c4Squad`:
position full, budget exceeded, duplicate code, maxed-out team. -/
def c4Player : Player := ⟨1, "a2", .GK, 5, 7, 1, "T"⟩

theorem c4_failure_order_witness :
    posCount c4Squad c4Player.position = Squad.limits c4Player.position ∧
    Squad.cap < total_value c4Squad + c4Player.value ∧
    c4Player.code ∈ codes c4Squad ∧
    c4Player.team ∈ Squad.maxed_out_teams c4Squad ∧
    Squad.add_player c4Squad c4Player = .error .PositionFilled :=
  ⟨by decide, by decide, by decide, by decide,
    (c4_failure_order c4Squad c4Player).1 (by decide)⟩

/-- Result of a Python call that can return a value, return `None`, or raise
an exception. -/
inductive PyResult (α : Type) where
  | val (a : α)
  | none
  | err
deriving DecidableEq, Repr

namespace Squad

/-- Loop of `Squad.first_team` (squad.py lines 159-170): iterate the sorted
non-keeper rows, appending while the dynamically adjusted per-position maxima
allow.  `maxD` and `maxM` are the mutable entries `max_picks["DEF"]` and
`max_picks["MID"]` (both initially 5); `max_picks["FWD"]` stays 3.  The break
check `if len(first_team) == 11` runs at the top of each iteration, and after
every iteration picking 5 defenders caps midfielders at 4 and vice versa.
The iterated list was filtered to exclude goalkeepers, so the `GK` arm of the
cap lookup is never consulted (Python would raise `KeyError` there). -/
def ftLoop : List Player → List Player → ℕ → ℕ → List Player
  | [], ft, _, _ => ft
  | p :: rest, ft, maxD, maxM =>
    if ft.length = 11 then ft
    else
      let capP : ℕ :=
        match p.position with
        | .DEF => maxD
        | .MID => maxM
        | .FWD => 3
        | .GK => 0
      let ft' := if posCount ft p.position < capP then ft ++ [p] else ft
      let maxM' := if posCount ft' .DEF = 5 then 4 else maxM
      let maxD' := if posCount ft' .MID = 5 then 4 else maxD
      ftLoop rest ft' maxD' maxM'

/-- `Squad.first_team` (squad.py lines 141-173).  On a squad that is not full
it prints and returns `None` without touching `selected`; on a full squad it
first sorts `selected` in place (line 147, `inplace=True`), then picks the
top goalkeeper and fills the remaining slots with `ftLoop`.  The result pair
is (returned value, state of `selected` after the call); `.err` models the
`IndexError` Python would raise if a full squad contained no goalkeeper. -/
def first_team (s : List Player) : PyResult (List Player) × List Player :=
  if s.length = 15 then
    let df := insSort squadSortLe s
    match (df.filter (fun p => decide (p.position = Position.GK))).head? with
    | some keeper =>
      (.val (ftLoop (df.filter (fun p => decide (p.position ≠ Position.GK))) [keeper] 5 5),
        df)
    | Option.none => (.err, df)
  else (.none, s)

/-- `Squad.captain` (squad.py lines 196-205): `None` when the squad is not
full; otherwise sorts `selected` in place and returns `{code: name}` of the
top row (`df.iloc[0]`). -/
def captain (s : List Player) : PyResult (Int × String) × List Player :=
  if s.length = 15 then
    let df := insSort squadSortLe s
    match df.head? with
    | some c => (.val (c.code, c.name), df)
    | Option.none => (.err, df)
  else (.none, s)

/-- `Squad.vice_captain` (squad.py lines 207-216): `None` when the squad is
not full; otherwise sorts `selected` in place and returns `{code: name}` of
the second row (`df.iloc[1]`). -/
def vice_captain (s : List Player) : PyResult (Int × String) × List Player :=
  if s.length = 15 then
    let df := insSort squadSortLe s
    match df[1]? with
    | some c => (.val (c.code, c.name), df)
    | Option.none => (.err, df)
  else (.none, s)

end Squad

/-- C10: on a Roster holding fewer than 15 players, the accessors
`first_team`, `captain` and `vice_captain` all return `None` — they raise no
exception and leave the stored `selected` DataFrame untouched (each guard
returns before any statement that could raise or mutate runs). -/
theorem c10_not_full_accessors (s : List Player) (h : s.length < 15) :
    Squad.first_team s = (.none, s) ∧
    Squad.captain s = (.none, s) ∧
    Squad.vice_captain s = (.none, s) := by
  have hne : s.length ≠ 15 := by omega
  refine ⟨?_, ?_, ?_⟩ <;>
    simp [Squad.first_team, Squad.captain, Squad.vice_captain, hne]

/-- A single selected player, leaving the squad short of full. -/
def soloPlayer : Player := ⟨9, "s", .MID, 50, 4, 1, "U"⟩

theorem c10_not_full_accessors_witness :
    Squad.first_team [soloPlayer] = (.none, [soloPlayer]) ∧
    Squad.captain [soloPlayer] = (.none, [soloPlayer]) ∧
    Squad.vice_captain [soloPlayer] = (.none, [soloPlayer]) :=
  c10_not_full_accessors [soloPlayer] (by decide)

namespace PlayerScorer

/-- Python list slicing `l[a:b]` (step 1) with integer bounds: a negative
index counts from the end of the list, and both bounds are clamped to
`[0, len(l)]`. -/
def pySlice (l : List α) (a b : Int) : List α :=
  let norm : Int → ℕ := fun i =>
    if i < 0 then ((l.length : Int) + i).toNat else min i.toNat l.length
  (l.take (norm b)).drop (norm a)

/-- `np.mean` of a column, as exact rationals. -/
def np_mean (l : List ℚ) : ℚ := l.sum / l.length

/-- `np.sum` of a column. -/
def np_sum (l : List ℚ) : ℚ := l.sum

/-- Python `list.index`: position of the first occurrence of `a`.  (When `a`
is absent Python raises `ValueError`; this total model then returns the list
length, and every theorem below assumes membership.) -/
def list_index (a : ℕ × ℕ) : List (ℕ × ℕ) → ℕ
  | [] => 0
  | x :: xs => if x = a then 0 else list_index a xs + 1

theorem list_index_lt_length {a : ℕ × ℕ} {l : List (ℕ × ℕ)} (h : a ∈ l) :
    list_index a l < l.length := by
  induction l with
  | nil => cases h
  | cons x xs ih =>
    unfold list_index
    split
    · simp
    · next hne =>
      have hx : a ∈ xs := by
        rcases List.mem_cons.mp h with rfl | hx
        · exact absurd rfl hne
        · exact hx
      simpa using ih hx

theorem getElem?_list_index {a : ℕ × ℕ} {l : List (ℕ × ℕ)} (h : a ∈ l) :
    l[list_index a l]? = some a := by
  induction l with
  | nil => cases h
  | cons x xs ih =>
    unfold list_index
    split
    · next heq => simp [heq]
    · next hne =>
      have hx : a ∈ xs := by
        rcases List.mem_cons.mp h with rfl | hx
        · exact absurd rfl hne
        · exact hx
      simpa using ih hx

/-- `PlayerScorer.aggregate_master` (player_scorer.py lines 42-65) for one
player column `v` of the pivoted master table whose row index is `ix` (the
(year, GW) pairs in pivot order): locate `(year, week)` in the index, slice
out the `n` rows ending there inclusively (`ix_list[min_ix:max_ix]`),
optionally drop rows of other years when `cross_seasons` is false, and apply
`agg` to the column over those rows.  Python's `list.index` raises
`ValueError` when the pair is absent (the fail-fast of spec §7);
`List.indexOf` then returns the list length and the theorems below assume
membership. -/
def aggregate_master (ix : List (ℕ × ℕ)) (v : ℕ × ℕ → ℚ) (year week n : ℕ)
    (agg : List ℚ → ℚ) (cross_seasons : Bool) : ℚ :=
  let max_ix : Int := (list_index (year, week) ix : ℕ) + 1
  let min_ix : Int := max_ix - n
  let indices := pySlice ix min_ix max_ix
  let indices := if cross_seasons then indices
    else indices.filter (fun t => decide (t.1 = year))
  agg (indices.map v)

end PlayerScorer

/-- C8: with enough history before it, `aggregate_master` applies the
aggregation function to exactly the `n` most recent index rows ending at
`(year, week)` inclusive — the window is `ix[k+1-n : k+1]` where `k` is the
position of `(year, week)` in the index, it has length exactly `n`, and its
last row is `(year, week)` itself. -/
theorem c8_trailing_window (ix : List (ℕ × ℕ)) (v : ℕ × ℕ → ℚ) (year week n k : ℕ)
    (hk : PlayerScorer.list_index (year, week) ix = k) (hmem : (year, week) ∈ ix)
    (hn : n ≤ k + 1) :
    ∀ agg : List ℚ → ℚ,
      PlayerScorer.aggregate_master ix v year week n agg true =
        agg (((ix.take (k + 1)).drop (k + 1 - n)).map v) ∧
      ((ix.take (k + 1)).drop (k + 1 - n)).length = n ∧
      (1 ≤ n → ((ix.take (k + 1)).drop (k + 1 - n)).getLast? = some (year, week)) := by
  intro agg
  have hklt : k < ix.length := by
    rw [← hk]; exact PlayerScorer.list_index_lt_length hmem
  have hslice : PlayerScorer.pySlice ix ((k : Int) + 1 - n) ((k : Int) + 1) =
      (ix.take (k + 1)).drop (k + 1 - n) := by
    unfold PlayerScorer.pySlice
    have ha : ¬ ((k : Int) + 1 - n < 0) := by omega
    have hb : ¬ ((k : Int) + 1 < 0) := by omega
    simp only [ha, hb, if_false]
    have h1 : ((k : Int) + 1 - n).toNat = k + 1 - n := by omega
    have h2 : ((k : Int) + 1).toNat = k + 1 := by omega
    have h3 : min (k + 1 - n) ix.length = k + 1 - n := by omega
    rw [h1, h2, h3, min_eq_left (by omega)]
  have hwinlen : ((ix.take (k + 1)).drop (k + 1 - n)).length = n := by
    rw [List.length_drop, List.length_take]
    omega
  refine ⟨?_, hwinlen, ?_⟩
  · unfold PlayerScorer.aggregate_master
    simp only [hk, if_true]
    exact congrArg agg (congrArg (List.map v) hslice)
  · intro hn1
    have hlast : ((ix.take (k + 1)).drop (k + 1 - n)).getLast? =
        ((ix.take (k + 1)).drop (k + 1 - n))[n - 1]? := by
      rw [List.getLast?_eq_getElem?, hwinlen]
    rw [hlast, List.getElem?_drop]
    have hidx : k + 1 - n + (n - 1) = k := by omega
    rw [hidx]
    rw [List.getElem?_take_of_lt (by omega)]
    rw [← hk]
    exact PlayerScorer.getElem?_list_index hmem

/-- Index rows (year, GW) of a five-week master table. -/
def c8Index : List (ℕ × ℕ) := [(2020, 1), (2020, 2), (2020, 3), (2020, 4), (2020, 5)]

/-- A player's points column over `c8Index`: 2, 4, 6, 8, 10. -/
def c8Points : ℕ × ℕ → ℚ := fun t => 2 * t.2

theorem c8_trailing_window_witness :
    PlayerScorer.aggregate_master c8Index c8Points 2020 5 5 PlayerScorer.np_mean true = 6 ∧
    PlayerScorer.aggregate_master c8Index c8Points 2020 5 5 PlayerScorer.np_sum true = 30 := by
  constructor
  · rw [(c8_trailing_window c8Index c8Points 2020 5 5 4 (by decide) (by decide) (by decide)
      PlayerScorer.np_mean).1]
    norm_num [c8Index, c8Points, PlayerScorer.np_mean]
  · rw [(c8_trailing_window c8Index c8Points 2020 5 5 4 (by decide) (by decide) (by decide)
      PlayerScorer.np_sum).1]
    norm_num [c8Index, c8Points, PlayerScorer.np_sum]

namespace SquadBuilder

/-- The transformation applied to the argument pair (n, n_premium) by the
recursive degrade calls of `SquadBuilder.build_team` (squad_builder.py lines
150-154 and 167-171).  The call is `self.build_team(year, week,
n_premium - 1, ...)`: the value `n_premium - 1` is passed positionally in the
slot of the third positional parameter `n`, and `n_premium` itself is not
passed, so it silently resets to its default value 3. -/
def degrade_args (p : Int × Int) : Int × Int := (p.2 - 1, 3)

/-- The degrade recursion of `build_team` in the situation the claim's base
case is about: the candidate pool is empty at every level, so every level
hits an `if not len(pool)` branch and immediately recurses on
`degrade_args`.  `fuel` bounds how many levels we unfold; `none` means the
recursion is still running after `fuel` levels.  No branch returns a value:
no level can stop, and no `InfeasibleBuild`-style exception exists anywhere
in the code base to be raised. -/
def build_degrade : ℕ → Int × Int → Option (Int × Int)
  | 0, _ => Option.none
  | fuel + 1, p => build_degrade fuel (degrade_args p)

end SquadBuilder

/-- C3 (refutation): the degrade recursion of `build_team` never reaches a
base case — after any recursive call the premium count is back at its
default 3 whatever it was before, the argument pair is stuck at (2, 3) from
the second call on, and with an everywhere-empty pool the recursion never
terminates no matter how much fuel it is granted, instead of bottoming out
at premium_count = 0 and propagating failure to the caller. -/
theorem c3_degrade_never_terminates :
    (∀ p : Int × Int, (SquadBuilder.degrade_args p).2 = 3) ∧
    (∀ p : Int × Int,
      SquadBuilder.degrade_args (SquadBuilder.degrade_args p) = (2, 3)) ∧
    (∀ (fuel : ℕ) (p : Int × Int),
      SquadBuilder.build_degrade fuel p = Option.none) := by
  refine ⟨fun p => rfl, fun p => rfl, ?_⟩
  intro fuel
  induction fuel with
  | zero => intro p; rfl
  | succ f ih => intro p; exact ih _

/-- One row of the scored player table built by `SquadBuilder.players`
(squad_builder.py lines 54-65): the index `code`, the scoring-metric
columns, and the player-info columns `position` / `value` / `team`, which
are NaN (modelled as `Option.none`) for players who have left the league;
`score_per_value` is the metric divided by value and is NaN when value is. -/
structure PoolRow where
  code : Int
  position : Option Position
  value : Option Int
  team : Option String
  score : ℚ
  score_per_value : Option ℚ
  minutes_percent : ℚ
deriving DecidableEq, Repr

namespace SquadBuilder

/-- Filter on the `position` argument (squad_builder.py lines 72-77).  The
Python guard is `if position:`, so `None` and the empty list are both
no-ops; a NaN position is never a member of the requested list. -/
def step_position (position : Option (List Position)) (df : List PoolRow) :
    List PoolRow :=
  match position with
  | some ps =>
    if ps.isEmpty then df
    else df.filter (fun r =>
      match r.position with
      | some q => decide (q ∈ ps)
      | Option.none => false)
  | Option.none => df

/-- Filter `df[self._scoring_metric] > min_score` (lines 78-79). -/
def step_min_score (min_score : Option ℚ) (df : List PoolRow) : List PoolRow :=
  match min_score with
  | some m => df.filter (fun r => decide (m < r.score))
  | Option.none => df

/-- Filter `df[self._val_metric] > min_score_per_value` (lines 80-81); a NaN
ratio (missing value) compares False. -/
def step_min_spv (min_spv : Option ℚ) (df : List PoolRow) : List PoolRow :=
  match min_spv with
  | some m => df.filter (fun r =>
      match r.score_per_value with
      | some spv => decide (m < spv)
      | Option.none => false)
  | Option.none => df

/-- Filter `df["value"] <= max_val` (lines 82-83); NaN compares False. -/
def step_max_val (max_val : Option ℚ) (df : List PoolRow) : List PoolRow :=
  match max_val with
  | some m => df.filter (fun r =>
      match r.value with
      | some v => decide ((v : ℚ) ≤ m)
      | Option.none => false)
  | Option.none => df

/-- Filter `df["minutes_percent"] >= min_minute_percent` (lines 84-85). -/
def step_min_mp (min_mp : Option ℚ) (df : List PoolRow) : List PoolRow :=
  match min_mp with
  | some m => df.filter (fun r => decide (m ≤ r.minutes_percent))
  | Option.none => df

/-- Availability filter (lines 86-91): map the availability series onto the
frame, fill the missing entries with False, and keep the available rows. -/
def step_avail (availability : Int → Option Bool) (drop_unavailable : Bool)
    (df : List PoolRow) : List PoolRow :=
  if drop_unavailable then df.filter (fun r => (availability r.code).getD false)
  else df

/-- The predicate pipeline of `SquadBuilder._player_pool` up to line 91, in
source order. -/
def pool_filters (df : List PoolRow) (availability : Int → Option Bool)
    (position : Option (List Position)) (min_score : Option ℚ)
    (min_spv : Option ℚ) (max_val : Option ℚ) (min_mp : Option ℚ)
    (drop_unavailable : Bool) : List PoolRow :=
  step_avail availability drop_unavailable
    (step_min_mp min_mp
      (step_max_val max_val
        (step_min_spv min_spv
          (step_min_score min_score
            (step_position position df)))))

/-- The `AttributeError` raised at squad_builder.py line 94. -/
inductive PyErr where
  | attributeError
deriving DecidableEq, Repr

/-- `SquadBuilder._player_pool` (squad_builder.py lines 67-103).  After the
predicate pipeline, line 94 evaluates `self.__squad._selected_list`; the
`Squad` class defines the property `selected_list` but no attribute
`_selected_list`, so every call raises `AttributeError` at that line, and
the remaining steps — already-selected exclusion, maxed-team exclusion and
the missing-metadata `dropna` — are unreachable. -/
def player_pool (df : List PoolRow) (availability : Int → Option Bool)
    (position : Option (List Position)) (min_score : Option ℚ)
    (min_spv : Option ℚ) (max_val : Option ℚ) (min_mp : Option ℚ)
    (drop_unavailable : Bool) : Except PyErr (List PoolRow) :=
  let _filtered := pool_filters df availability position min_score min_spv
    max_val min_mp drop_unavailable
  .error .attributeError

theorem step_position_sublist (position : Option (List Position))
    (df : List PoolRow) : (step_position position df).Sublist df := by
  cases position with
  | none => exact List.Sublist.refl df
  | some ps =>
    cases hps : ps.isEmpty <;>
      simp [step_position, hps, List.filter_sublist, List.Sublist.refl]

theorem step_min_score_sublist (m : Option ℚ) (df : List PoolRow) :
    (step_min_score m df).Sublist df := by
  cases m with
  | none => exact List.Sublist.refl df
  | some m => exact List.filter_sublist df

theorem step_min_spv_sublist (m : Option ℚ) (df : List PoolRow) :
    (step_min_spv m df).Sublist df := by
  cases m with
  | none => exact List.Sublist.refl df
  | some m => exact List.filter_sublist df

theorem step_max_val_sublist (m : Option ℚ) (df : List PoolRow) :
    (step_max_val m df).Sublist df := by
  cases m with
  | none => exact List.Sublist.refl df
  | some m => exact List.filter_sublist df

theorem step_min_mp_sublist (m : Option ℚ) (df : List PoolRow) :
    (step_min_mp m df).Sublist df := by
  cases m with
  | none => exact List.Sublist.refl df
  | some m => exact List.filter_sublist df

theorem step_avail_sublist (availability : Int → Option Bool) (du : Bool)
    (df : List PoolRow) : (step_avail availability du df).Sublist df := by
  unfold step_avail
  split
  · exact List.filter_sublist df
  · exact List.Sublist.refl df

end SquadBuilder

/-- C9 (code evaluation): every call of `SquadBuilder._player_pool` raises
`AttributeError` at line 94 because `Squad` has no attribute
`_selected_list` (the property is named `selected_list`), so the pool is
never returned.  The predicate pipeline before that line does, in
isolation, satisfy the claim's narrowing property — its result is always a
sublist of the scored table, and with every predicate unset it is the
identity on the table. -/
theorem c9_player_pool_raises :
    (∀ df availability position min_score min_spv max_val min_mp du,
      SquadBuilder.player_pool df availability position min_score min_spv
          max_val min_mp du =
        .error .attributeError) ∧
    (∀ df availability position min_score min_spv max_val min_mp du,
      (SquadBuilder.pool_filters df availability position min_score min_spv
          max_val min_mp du).Sublist df) ∧
    (∀ df availability,
      SquadBuilder.pool_filters df availability Option.none Option.none
          Option.none Option.none Option.none false = df) := by
  refine ⟨fun _ _ _ _ _ _ _ _ => rfl, ?_, fun df availability => rfl⟩
  intro df availability position min_score min_spv max_val min_mp du
  unfold SquadBuilder.pool_filters
  exact ((((((SquadBuilder.step_avail_sublist availability du _).trans
    (SquadBuilder.step_min_mp_sublist min_mp _)).trans
    (SquadBuilder.step_max_val_sublist max_val _)).trans
    (SquadBuilder.step_min_spv_sublist min_spv _)).trans
    (SquadBuilder.step_min_score_sublist min_score _)).trans
    (SquadBuilder.step_position_sublist position df))

/-- `itertools.combinations` over the codes of a player frame, with each code
tuple replaced by the corresponding rows: all `r`-element subsequences in
enumeration order.  (`get_perms` builds the combinations over the `code`
column and maps every attribute back through code-keyed dicts; since a squad
or pool frame has distinct codes this is the same as combining the rows
directly.) -/
def combinations : ℕ → List α → List (List α)
  | 0, _ => [[]]
  | _ + 1, [] => []
  | r + 1, x :: xs =>
    (combinations r xs).map (fun c => x :: c) ++ combinations (r + 1) xs

theorem combinations_spec :
    ∀ (r : ℕ) (l c : List α), c ∈ combinations r l → c.Sublist l ∧ c.length = r := by
  intro r l
  induction l generalizing r with
  | nil =>
    intro c hc
    cases r with
    | zero =>
      simp only [combinations, List.mem_singleton] at hc
      subst hc
      exact ⟨List.Sublist.refl _, rfl⟩
    | succ r => simp [combinations] at hc
  | cons x xs ih =>
    intro c hc
    cases r with
    | zero =>
      simp only [combinations, List.mem_singleton] at hc
      subst hc
      exact ⟨List.nil_sublist _, rfl⟩
    | succ r =>
      rw [combinations] at hc
      rcases List.mem_append.mp hc with hmem | hmem
      · rcases List.mem_map.mp hmem with ⟨c', hc', rfl⟩
        obtain ⟨hs, hl⟩ := ih r c' hc'
        exact ⟨hs.cons₂ x, by simp [hl]⟩
      · obtain ⟨hs, hl⟩ := ih (r + 1) c hmem
        exact ⟨hs.cons x, hl⟩

/-- The `value_total` column of a perms row. -/
def valueTotal (c : List Player) : Int := total_value c

/-- The combination total on the chosen metric: the `score_total` column, or
`score_per_value_total` when `score_per_value` is set. -/
def metricTotal (spv : Bool) (c : List Player) : Int :=
  if spv then total_score_per_val c else total_score c

/-- Order of Python's alphabetical sort of position strings:
"DEF" < "FWD" < "GK" < "MID". -/
def posKey : Position → ℕ
  | .DEF => 0
  | .FWD => 1
  | .GK => 2
  | .MID => 3

/-- The `positions` column of `get_perms`: the sorted tuple of the
combination's positions. -/
def sortedPositions (c : List Player) : List Position :=
  insSort (fun a b => decide (posKey a ≤ posKey b)) (c.map Player.position)

/-- The `players` column of `get_perms`: the sorted tuple of the
combination's codes. -/
def sortedCodes (c : List Player) : List Int :=
  insSort (fun a b => decide (a ≤ b)) (codes c)

theorem metricTotal_perm {spv : Bool} {l₁ l₂ : List Player} (h : l₁ ~ l₂) :
    metricTotal spv l₁ = metricTotal spv l₂ := by
  unfold metricTotal total_score_per_val total_score
  cases spv <;> simp only [if_true, if_false, Bool.false_eq_true] <;>
    exact (h.map _).sum_eq

theorem metricTotal_append (spv : Bool) (l₁ l₂ : List Player) :
    metricTotal spv (l₁ ++ l₂) = metricTotal spv l₁ + metricTotal spv l₂ := by
  unfold metricTotal total_score_per_val total_score
  cases spv <;> simp

/-- Combinations with the same sorted position tuple have the same number of
players in every position. -/
theorem posCount_eq_of_sortedPositions {a b : List Player}
    (h : sortedPositions a = sortedPositions b) (q : Position) :
    posCount a q = posCount b q := by
  have key : ∀ c : List Player,
      posCount c q = (sortedPositions c).countP (fun x => decide (x = q)) := by
    intro c
    unfold sortedPositions
    rw [(insSort_perm _ _).countP_eq, List.countP_map]
    rfl
  rw [key a, key b, h]

/-- One row of the `squad_optimisations` frame: the chosen replacement
combination (the `p0 ... p{r-1}` columns) together with the held combination
it replaces (`players_to_remove` and the `to_remove_*` totals). -/
structure SwapRow where
  addCombo : List Player
  removeCombo : List Player
deriving DecidableEq, Repr

/-- Sort key of `subset_perms`' result: metric total descending, value total
ascending. -/
def betterLe (spv : Bool) (a b : List Player) : Bool :=
  if metricTotal spv a ≠ metricTotal spv b then
    decide (metricTotal spv b < metricTotal spv a)
  else decide (valueTotal a ≤ valueTotal b)

/-- Sort key of squad_perms (metric ascending, value descending): worst held
combinations are considered for removal first. -/
def removeLe (spv : Bool) (a b : List Player) : Bool :=
  if metricTotal spv a ≠ metricTotal spv b then
    decide (metricTotal spv a < metricTotal spv b)
  else decide (valueTotal b ≤ valueTotal a)

/-- Sort key of the final optimisations frame: `score_diff` descending,
`value_diff` ascending. -/
def rowLe (spv : Bool) (a b : SwapRow) : Bool :=
  if metricTotal spv a.addCombo - metricTotal spv a.removeCombo ≠
      metricTotal spv b.addCombo - metricTotal spv b.removeCombo then
    decide (metricTotal spv b.addCombo - metricTotal spv b.removeCombo <
      metricTotal spv a.addCombo - metricTotal spv a.removeCombo)
  else
    decide (valueTotal a.addCombo - valueTotal a.removeCombo ≤
      valueTotal b.addCombo - valueTotal b.removeCombo)

/-- `subset_perms` (optimiser.py lines 44-49): the pool combinations with the
same sorted position signature, metric total strictly above `min_score` and
value total strictly below `max_val`, sorted metric descending then value
ascending. -/
def subset_perms (spv : Bool) (pool_perms : List (List Player))
    (positions : List Position) (min_score max_val : Int) : List (List Player) :=
  insSort (betterLe spv)
    (pool_perms.filter (fun c =>
      decide (sortedPositions c = positions) &&
      decide (min_score < metricTotal spv c) &&
      decide (valueTotal c < max_val)))

/-- The body of the `squad_optimisations` loop for one held combination
`rem` (optimiser.py lines 73-87): the best strictly improving affordable
pool combination with the same position signature and a different code
tuple, if any (`better_perms.iloc[0]`). -/
def bestSwap (spv : Bool) (pool_perms : List (List Player)) (spare : Int)
    (rem : List Player) : Option SwapRow :=
  (((subset_perms spv pool_perms (sortedPositions rem) (metricTotal spv rem)
        (spare + valueTotal rem)).filter
      (fun c => decide (sortedCodes c ≠ sortedCodes rem))).head?).map
    (fun s => ⟨s, rem⟩)

/-- `squad_optimisations` (optimiser.py lines 52-93): enumerate the r-sized
combinations of the current squad, sorted worst first, pair each with its
best improving pool combination, and sort the hits by score difference
descending then value difference ascending. -/
def squad_optimisations (r : ℕ) (spv : Bool) (squad pool : List Player) :
    List SwapRow :=
  insSort (rowLe spv)
    ((insSort (removeLe spv) (combinations r squad)).filterMap
      (bestSwap spv (combinations r pool) (Squad.available_budget squad)))

/-- The add loop of `optimiser` (optimiser.py lines 126-135): add each of the
replacement players to the test squad in order, stopping at the first
exception.  The replacement rows carry the pool's position/value/score data;
the team of each player comes from `PlayerInformation.player_teams`, which is
the same upstream source the pool frame's team column was built from, so it
is the player's `team` field here. -/
def try_add_combo (test : List Player) :
    List Player → Except Squad.SquadError (List Player)
  | [] => .ok test
  | p :: rest =>
    match Squad.add_player test p with
    | .ok t => try_add_combo t rest
    | .error e => .error e

/-- The test squad of optimiser.py lines 120-123: a fresh `Squad` whose
`selected` is a copy of the current squad without the rows whose code is in
`players_to_remove` — the real squad is not touched. -/
def commitTest (squad : List Player) (row : SwapRow) : List Player :=
  squad.filter (fun p => decide (p.code ∉ sortedCodes row.removeCombo))

/-- The row loop of `optimiser` (optimiser.py lines 116-145): try each
optimisation row in order.  The first row whose additions all succeed is
committed (`.ok (some newSquad)` — the loop breaks); a row failing with
`AlreadySelected` or `MaxedOutTeam` is skipped by the `except` clause at
line 144 and the loop falls through to the next row with the squad
unchanged; any other exception propagates out (`.error e`).  `.ok none`
means the pass ended with no commit. -/
def try_rows (squad : List Player) :
    List SwapRow → Except Squad.SquadError (Option (List Player))
  | [] => .ok Option.none
  | row :: rest =>
    match try_add_combo (commitTest squad row) row.addCombo with
    | .ok t => .ok (some t)
    | .error .AlreadySelected => try_rows squad rest
    | .error .MaxedOutTeam => try_rows squad rest
    | .error e => .error e

/-- `optimiser` (optimiser.py lines 96-145).  Each iteration recomputes the
optimisation rows for the current squad (`self.get_player_pool`, which may
depend on the squad state, is abstracted as `poolFn`); when no row exists
the function prints the summary and returns (final flag `true`); otherwise
the first committable row is committed, `increase` grows by the committed
score delta, and the outer loop continues with one fewer iteration; when a
pass commits nothing the loop runs again unchanged, and when the iteration
budget runs out the function falls off the loop (final flag `false`). -/
def optimiser_run (poolFn : List Player → List Player) (r : ℕ) (spv : Bool) :
    ℕ → List Player → Int → Except Squad.SquadError (List Player × Int × Bool)
  | 0, squad, increase => .ok (squad, increase, false)
  | fuel + 1, squad, increase =>
    if (squad_optimisations r spv squad (poolFn squad)).isEmpty then
      .ok (squad, increase, true)
    else
      match try_rows squad (squad_optimisations r spv squad (poolFn squad)) with
      | .error e => .error e
      | .ok Option.none => optimiser_run poolFn r spv fuel squad increase
      | .ok (some sq) =>
        optimiser_run poolFn r spv fuel sq
          (increase + (metricTotal spv sq - metricTotal spv squad))

/-- All player values of a frame are nonnegative (prices are amounts of
money). -/
def ValuesNonneg (s : List Player) : Prop := ∀ p ∈ s, 0 ≤ p.value

instance (s : List Player) : Decidable (ValuesNonneg s) := by
  unfold ValuesNonneg; infer_instance

theorem head?_mem {l : List α} {a : α} (h : l.head? = some a) : a ∈ l := by
  cases l with
  | nil => cases h
  | cons x xs =>
    simp only [List.head?_cons, Option.some.injEq] at h
    subst h
    exact List.mem_cons_self x xs

theorem bestSwap_spec {spv : Bool} {pool_perms : List (List Player)} {spare : Int}
    {rem : List Player} {row : SwapRow}
    (h : bestSwap spv pool_perms spare rem = some row) :
    row.removeCombo = rem ∧
    row.addCombo ∈ pool_perms ∧
    sortedPositions row.addCombo = sortedPositions rem ∧
    metricTotal spv rem < metricTotal spv row.addCombo ∧
    valueTotal row.addCombo < spare + valueTotal rem := by
  unfold bestSwap at h
  rcases Option.map_eq_some'.mp h with ⟨s, hs, rfl⟩
  have hmem : s ∈ (subset_perms spv pool_perms (sortedPositions rem)
      (metricTotal spv rem) (spare + valueTotal rem)).filter
      (fun c => decide (sortedCodes c ≠ sortedCodes rem)) := head?_mem hs
  have hmem2 := (List.mem_filter.mp hmem).1
  unfold subset_perms at hmem2
  rw [(insSort_perm _ _).mem_iff] at hmem2
  obtain ⟨hpp, hconds⟩ := List.mem_filter.mp hmem2
  simp only [Bool.and_eq_true, decide_eq_true_eq] at hconds
  exact ⟨rfl, hpp, hconds.1.1, hconds.1.2, hconds.2⟩

/-- What membership in the `squad_optimisations` frame guarantees about a
row: the removal combination is an r-sized combination of the squad, the
replacement one of the pool, same sorted position signature, strictly
greater metric total, and value total strictly under the freed budget. -/
def RowOk (spv : Bool) (squad pool : List Player) (row : SwapRow) : Prop :=
  row.removeCombo.Sublist squad ∧
  row.addCombo.Sublist pool ∧
  sortedPositions row.addCombo = sortedPositions row.removeCombo ∧
  metricTotal spv row.removeCombo < metricTotal spv row.addCombo ∧
  valueTotal row.addCombo <
    Squad.available_budget squad + valueTotal row.removeCombo

theorem opts_row_ok {r : ℕ} {spv : Bool} {squad pool : List Player}
    {row : SwapRow} (h : row ∈ squad_optimisations r spv squad pool) :
    RowOk spv squad pool row := by
  unfold squad_optimisations at h
  rw [(insSort_perm _ _).mem_iff] at h
  rcases List.mem_filterMap.mp h with ⟨rem, hrem, hbs⟩
  obtain ⟨hrc, hpp, hposs, hmet, hval⟩ := bestSwap_spec hbs
  rw [(insSort_perm _ _).mem_iff] at hrem
  have hsub := (combinations_spec r squad rem hrem).1
  have hsubadd := (combinations_spec r pool row.addCombo hpp).1
  refine ⟨by rw [hrc]; exact hsub, hsubadd, by rw [hrc]; exact hposs,
    by rw [hrc]; exact hmet, by rw [hrc]; exact hval⟩

theorem filter_codes_append_perm :
    ∀ {rem l : List Player}, rem.Sublist l → (codes l).Nodup →
      l.filter (fun p => decide (p.code ∉ codes rem)) ++ rem ~ l := by
  intro rem l hsub
  induction hsub with
  | slnil =>
    intro _
    simp
  | @cons l₁ l₂ a h ih =>
    intro hnd
    have hnd' : (a.code :: codes l₂).Nodup := by simpa [codes] using hnd
    have hanotin : a.code ∉ codes l₂ := (List.nodup_cons.mp hnd').1
    have hnd₂ : (codes l₂).Nodup := (List.nodup_cons.mp hnd').2
    have hsubcodes : codes l₁ ⊆ codes l₂ := (h.map Player.code).subset
    have hain : a.code ∉ codes l₁ := fun hc => hanotin (hsubcodes hc)
    have hkeep : (a :: l₂).filter (fun p => decide (p.code ∉ codes l₁)) =
        a :: l₂.filter (fun p => decide (p.code ∉ codes l₁)) := by
      rw [List.filter_cons_of_pos (by simpa using hain)]
    rw [hkeep]
    exact (ih hnd₂).cons a
  | @cons₂ l₁ l₂ a h ih =>
    intro hnd
    have hnd' : (a.code :: codes l₂).Nodup := by simpa [codes] using hnd
    have hanotin : a.code ∉ codes l₂ := (List.nodup_cons.mp hnd').1
    have hnd₂ : (codes l₂).Nodup := (List.nodup_cons.mp hnd').2
    have hdrop : (a :: l₂).filter (fun p => decide (p.code ∉ codes (a :: l₁))) =
        l₂.filter (fun p => decide (p.code ∉ codes (a :: l₁))) := by
      rw [List.filter_cons_of_neg]
      simp [codes]
    have hcongr : l₂.filter (fun p => decide (p.code ∉ codes (a :: l₁))) =
        l₂.filter (fun p => decide (p.code ∉ codes l₁)) := by
      apply List.filter_congr
      intro p hp
      have hpne : p.code ≠ a.code := by
        intro hc
        exact hanotin (hc ▸ List.mem_map_of_mem Player.code hp)
      simp [codes, decide_eq_decide, hpne]
    rw [hdrop, hcongr]
    calc l₂.filter (fun p => decide (p.code ∉ codes l₁)) ++ (a :: l₁)
        ~ a :: (l₂.filter (fun p => decide (p.code ∉ codes l₁)) ++ l₁) :=
          List.perm_middle
      _ ~ a :: l₂ := (ih hnd₂).cons a

theorem commitTest_perm {squad : List Player} {row : SwapRow}
    (hnd : (codes squad).Nodup) (hsub : row.removeCombo.Sublist squad) :
    commitTest squad row ++ row.removeCombo ~ squad := by
  unfold commitTest
  have hrw : squad.filter
        (fun p => decide (p.code ∉ sortedCodes row.removeCombo)) =
      squad.filter (fun p => decide (p.code ∉ codes row.removeCombo)) := by
    apply List.filter_congr
    intro p _
    simp only [decide_eq_decide]
    unfold sortedCodes
    rw [(insSort_perm _ _).mem_iff]
  rw [hrw]
  exact filter_codes_append_perm hsub hnd

theorem posCount_cons (p : Player) (s : List Player) (q : Position) :
    posCount (p :: s) q = posCount s q + (if p.position = q then 1 else 0) := by
  simp [posCount, List.countP_cons]

theorem valueTotal_cons (p : Player) (s : List Player) :
    valueTotal (p :: s) = p.value + valueTotal s := by
  simp [valueTotal, total_value]

theorem valueTotal_nonneg {s : List Player} (h : ∀ p ∈ s, 0 ≤ p.value) :
    0 ≤ valueTotal s := by
  unfold valueTotal total_value
  apply List.sum_nonneg
  intro x hx
  rcases List.mem_map.mp hx with ⟨p, hp, rfl⟩
  exact h p hp

theorem try_add_combo_ok_perm :
    ∀ {c test t : List Player}, try_add_combo test c = .ok t → t ~ test ++ c := by
  intro c
  induction c with
  | nil =>
    intro test t h
    unfold try_add_combo at h
    cases h
    simp
  | cons p rest ih =>
    intro test t h
    unfold try_add_combo at h
    cases hadd : Squad.add_player test p with
    | ok t1 =>
      rw [hadd] at h
      have h1 := ih h
      have h2 := add_player_ok_perm hadd
      calc t ~ t1 ++ rest := h1
        _ ~ (test ++ [p]) ++ rest := h2.append_right rest
        _ = test ++ (p :: rest) := by simp
    | error e =>
      rw [hadd] at h
      exact Except.noConfusion h

theorem try_add_combo_inv :
    ∀ {c test t : List Player}, SquadInv test → try_add_combo test c = .ok t →
      SquadInv t := by
  intro c
  induction c with
  | nil =>
    intro test t hinv h
    unfold try_add_combo at h
    cases h
    exact hinv
  | cons p rest ih =>
    intro test t hinv h
    unfold try_add_combo at h
    cases hadd : Squad.add_player test p with
    | ok t1 =>
      rw [hadd] at h
      exact ih (add_player_preserves_inv hinv hadd) h
    | error e =>
      rw [hadd] at h
      exact Except.noConfusion h

/-- Under the conditions the subset_perms filter guarantees — room in every
position and room in the budget for the whole combination — the add loop can
only fail with `AlreadySelected` or `MaxedOutTeam`; `PositionFilled` and
`NotEnoughMoney` are unreachable. -/
theorem try_add_combo_err :
    ∀ {c test : List Player} {e : Squad.SquadError},
      (∀ q : Position, posCount test q + posCount c q ≤ Squad.limits q) →
      total_value test + valueTotal c ≤ Squad.cap →
      (∀ p ∈ c, 0 ≤ p.value) →
      try_add_combo test c = .error e →
      e = .AlreadySelected ∨ e = .MaxedOutTeam := by
  intro c
  induction c with
  | nil =>
    intro test e _ _ _ h
    unfold try_add_combo at h
    exact Except.noConfusion h
  | cons p rest ih =>
    intro test e hpos hbud hnn h
    unfold try_add_combo at h
    have hrestnn : ∀ x ∈ rest, 0 ≤ x.value :=
      fun x hx => hnn x (List.mem_cons_of_mem p hx)
    have hrestval : 0 ≤ valueTotal rest := valueTotal_nonneg hrestnn
    have hcons := valueTotal_cons p rest
    rw [hcons] at hbud
    have hq : posCount test p.position ≠ Squad.limits p.position := by
      have h1 := hpos p.position
      rw [posCount_cons] at h1
      simp at h1
      omega
    have hb : ¬ (Squad.cap < total_value test + p.value) := by omega
    cases hadd : Squad.add_player test p with
    | ok t1 =>
      rw [hadd] at h
      have hperm := add_player_ok_perm hadd
      have hposnew : ∀ q : Position, posCount t1 q + posCount rest q ≤ Squad.limits q := by
        intro q
        have hcount : posCount t1 q = posCount test q + posCount [p] q := by
          rw [posCount_perm hperm, posCount_append]
        have h1 := hpos q
        rw [posCount_cons] at h1
        have h2 : posCount [p] q = if p.position = q then 1 else 0 := by
          simp [posCount, List.countP_cons]
        omega
      have hbudnew : total_value t1 + valueTotal rest ≤ Squad.cap := by
        have htv : total_value t1 = total_value test + p.value := by
          rw [total_value_perm hperm, total_value_append]
          simp [total_value]
        omega
      exact ih hposnew hbudnew hrestnn h
    | error e1 =>
      rw [hadd] at h
      have he : e1 = e := by
        injection h
      subst he
      unfold Squad.add_player at hadd
      rw [if_neg hq, if_neg hb] at hadd
      by_cases hdup : p.code ∈ codes test
      · rw [if_pos hdup] at hadd
        injection hadd with h2
        exact Or.inl h2.symm
      · rw [if_neg hdup] at hadd
        by_cases hmax : p.team ∈ Squad.maxed_out_teams test
        · rw [if_pos hmax] at hadd
          injection hadd with h2
          exact Or.inr h2.symm
        · rw [if_neg hmax] at hadd
          exact Except.noConfusion hadd

/-- The test squad (squad minus a removal combination drawn from it) keeps
the invariants and nonnegative values, and its aggregates decompose. -/
theorem commit_facts (spv : Bool) {squad : List Player} {row : SwapRow}
    (hinv : SquadInv squad) (hnnsq : ValuesNonneg squad)
    (hsub : row.removeCombo.Sublist squad) :
    (∀ q : Position, posCount (commitTest squad row) q +
      posCount row.removeCombo q = posCount squad q) ∧
    total_value (commitTest squad row) + valueTotal row.removeCombo =
      total_value squad ∧
    metricTotal spv (commitTest squad row) + metricTotal spv row.removeCombo =
      metricTotal spv squad ∧
    SquadInv (commitTest squad row) ∧ ValuesNonneg (commitTest squad row) := by
  obtain ⟨hcap, hpos, hnd, hteam⟩ := hinv
  have hperm := commitTest_perm hnd hsub
  have hposdec : ∀ q : Position, posCount (commitTest squad row) q +
      posCount row.removeCombo q = posCount squad q := by
    intro q
    rw [← posCount_perm hperm q, posCount_append]
  have htvdec : total_value (commitTest squad row) + valueTotal row.removeCombo =
      total_value squad := by
    rw [← total_value_perm hperm, total_value_append]
    rfl
  have hmtdec : metricTotal spv (commitTest squad row) +
      metricTotal spv row.removeCombo = metricTotal spv squad := by
    rw [← metricTotal_perm hperm, metricTotal_append]
  have hsubfil : (commitTest squad row).Sublist squad := List.filter_sublist squad
  have hnn' : ValuesNonneg (commitTest squad row) :=
    fun p hp => hnnsq p (hsubfil.subset hp)
  have hremnn : 0 ≤ valueTotal row.removeCombo :=
    valueTotal_nonneg (fun p hp => hnnsq p (hsub.subset hp))
  refine ⟨hposdec, htvdec, hmtdec, ⟨?_, ?_, ?_, ?_⟩, hnn'⟩
  · omega
  · intro q
    have h1 := hpos q
    have h2 := hposdec q
    omega
  · exact List.Nodup.sublist (hsubfil.map Player.code) hnd
  · intro p hp
    have h1 : teamCount (commitTest squad row) p.team ≤ teamCount squad p.team :=
      hsubfil.countP_le _
    have h2 := hteam p (hsubfil.subset hp)
    omega

/-- Analysis of one pass of the optimiser's row loop: it either ends with no
commit, or commits some new squad that satisfies the invariants, keeps
values nonnegative, and strictly beats the current squad on the chosen
metric; in particular it never lets an exception escape. -/
theorem try_rows_spec {spv : Bool} {squad pool : List Player}
    (hinv : SquadInv squad) (hnnsq : ValuesNonneg squad)
    (hnnpool : ValuesNonneg pool) :
    ∀ rows : List SwapRow, (∀ row ∈ rows, RowOk spv squad pool row) →
      try_rows squad rows = .ok Option.none ∨
      ∃ sq, try_rows squad rows = .ok (some sq) ∧ SquadInv sq ∧
        ValuesNonneg sq ∧ metricTotal spv squad < metricTotal spv sq := by
  intro rows
  induction rows with
  | nil =>
    intro _
    left
    rfl
  | cons row rest ih =>
    intro hrows
    obtain ⟨hsub, hsubp, hposs, hmet, hval⟩ := hrows row (List.mem_cons_self row rest)
    obtain ⟨hposdec, htvdec, hmtdec, hinvc, hnnc⟩ :=
      commit_facts spv hinv hnnsq hsub
    have haddnn : ∀ p ∈ row.addCombo, 0 ≤ p.value :=
      fun p hp => hnnpool p (hsubp.subset hp)
    have hpos' : ∀ q : Position, posCount (commitTest squad row) q +
        posCount row.addCombo q ≤ Squad.limits q := by
      intro q
      have h1 := posCount_eq_of_sortedPositions hposs q
      have h2 := hposdec q
      have h3 := hinv.2.1 q
      omega
    have hbud' : total_value (commitTest squad row) + valueTotal row.addCombo ≤
        Squad.cap := by
      unfold Squad.available_budget at hval
      unfold Squad.cap
      omega
    cases htac : try_add_combo (commitTest squad row) row.addCombo with
    | ok t =>
      right
      refine ⟨t, ?_, ?_, ?_, ?_⟩
      · simp only [try_rows, htac]
      · exact try_add_combo_inv hinvc htac
      · intro p hp
        have hperm := try_add_combo_ok_perm htac
        rcases List.mem_append.mp (hperm.mem_iff.mp hp) with h1 | h1
        · exact hnnc p h1
        · exact haddnn p h1
      · have hperm := try_add_combo_ok_perm htac
        have hmt : metricTotal spv t =
            metricTotal spv (commitTest squad row) + metricTotal spv row.addCombo := by
          rw [metricTotal_perm hperm, metricTotal_append]
        omega
    | error e =>
      rcases try_add_combo_err hpos' hbud' haddnn htac with rfl | rfl
      · have hstep : try_rows squad (row :: rest) = try_rows squad rest := by
          simp only [try_rows, htac]
        rw [hstep]
        exact ih (fun x hx => hrows x (List.mem_cons_of_mem row hx))
      · have hstep : try_rows squad (row :: rest) = try_rows squad rest := by
          simp only [try_rows, htac]
        rw [hstep]
        exact ih (fun x hx => hrows x (List.mem_cons_of_mem row hx))

/-- The filter conditions a committed row guarantees for the add loop: room
in every position, room in the budget, nonnegative prices. -/
theorem row_add_hyps {spv : Bool} {squad pool : List Player} {row : SwapRow}
    (hinv : SquadInv squad) (hnnsq : ValuesNonneg squad)
    (hnnpool : ValuesNonneg pool) (hrow : RowOk spv squad pool row) :
    (∀ q : Position, posCount (commitTest squad row) q +
      posCount row.addCombo q ≤ Squad.limits q) ∧
    total_value (commitTest squad row) + valueTotal row.addCombo ≤ Squad.cap ∧
    (∀ p ∈ row.addCombo, 0 ≤ p.value) := by
  obtain ⟨hsub, hsubp, hposs, hmet, hval⟩ := hrow
  obtain ⟨hposdec, htvdec, hmtdec, hinvc, hnnc⟩ :=
    commit_facts spv hinv hnnsq hsub
  refine ⟨?_, ?_, fun p hp => hnnpool p (hsubp.subset hp)⟩
  · intro q
    have h1 := posCount_eq_of_sortedPositions hposs q
    have h2 := hposdec q
    have h3 := hinv.2.1 q
    omega
  · unfold Squad.available_budget at hval
    unfold Squad.cap
    omega

/-- Whole-run analysis: starting from an invariant-satisfying squad with
nonnegative prices, and a pool function yielding nonnegative prices, the
optimiser run always returns normally, preserves the invariants, never
decreases the chosen metric, and reports as `increase` exactly the total
metric delta. -/
theorem optimiser_run_spec (poolFn : List Player → List Player) (r : ℕ)
    (spv : Bool) (hnnpool : ∀ s, ValuesNonneg (poolFn s)) :
    ∀ (fuel : ℕ) (squad : List Player) (increase : Int),
      SquadInv squad → ValuesNonneg squad →
      ∃ S inc fin,
        optimiser_run poolFn r spv fuel squad increase = .ok (S, inc, fin) ∧
        SquadInv S ∧ ValuesNonneg S ∧
        metricTotal spv squad ≤ metricTotal spv S ∧
        inc - increase = metricTotal spv S - metricTotal spv squad := by
  intro fuel
  induction fuel with
  | zero =>
    intro squad increase h1 h2
    exact ⟨squad, increase, false, rfl, h1, h2, le_refl _, by omega⟩
  | succ f ih =>
    intro squad increase h1 h2
    cases hopts : (squad_optimisations r spv squad (poolFn squad)).isEmpty with
    | true =>
      refine ⟨squad, increase, true, ?_, h1, h2, le_refl _, by omega⟩
      simp [optimiser_run, hopts]
    | false =>
      rcases try_rows_spec h1 h2 (hnnpool squad)
          (squad_optimisations r spv squad (poolFn squad))
          (fun row hr => opts_row_ok hr) with
        hnone | ⟨sq, hcommit, hin, hnn, hlt⟩
      · obtain ⟨S, inc, fin, hrun, hS1, hS2, hle, hinc⟩ := ih squad increase h1 h2
        refine ⟨S, inc, fin, ?_, hS1, hS2, hle, hinc⟩
        simp only [optimiser_run, hopts, Bool.false_eq_true, if_false, hnone]
        exact hrun
      · obtain ⟨S, inc, fin, hrun, hS1, hS2, hle, hinc⟩ :=
          ih sq (increase + (metricTotal spv sq - metricTotal spv squad)) hin hnn
        refine ⟨S, inc, fin, ?_, hS1, hS2, le_trans (le_of_lt hlt) hle, by omega⟩
        simp only [optimiser_run, hopts, Bool.false_eq_true, if_false, hcommit]
        exact hrun

/-- If the run returned with the termination flag (the `return` of
optimiser.py line 115, reached only when `squad_optimisations` came back
empty), then the final squad admits no optimisation row at all. -/
theorem optimiser_run_terminated (poolFn : List Player → List Player) (r : ℕ)
    (spv : Bool) :
    ∀ {fuel : ℕ} {squad : List Player} {increase : Int} {S : List Player}
      {inc : Int},
      optimiser_run poolFn r spv fuel squad increase = .ok (S, inc, true) →
      squad_optimisations r spv S (poolFn S) = [] := by
  intro fuel
  induction fuel with
  | zero =>
    intro squad increase S inc h
    simp only [optimiser_run] at h
    injection h with h
    simp at h
  | succ f ih =>
    intro squad increase S inc h
    cases hopts : (squad_optimisations r spv squad (poolFn squad)).isEmpty with
    | true =>
      simp only [optimiser_run, hopts, if_true] at h
      injection h with h
      simp only [Prod.mk.injEq] at h
      obtain ⟨hS, -, -⟩ := h
      subst hS
      exact List.isEmpty_iff.mp hopts
    | false =>
      simp only [optimiser_run, hopts, Bool.false_eq_true, if_false] at h
      cases htr : try_rows squad (squad_optimisations r spv squad (poolFn squad)) with
      | error e =>
        rw [htr] at h
        exact Except.noConfusion h
      | ok o =>
        cases o with
        | none =>
          simp only [htr] at h
          exact ih h
        | some sq =>
          simp only [htr] at h
          exact ih h

/-- C2: every committed swap strictly increases the squad total on the
chosen metric (`total_score`, or `total_score_per_val` when
`score_per_value` is set), because a replacement combination must pass the
`subset_perms` filter — same sorted position signature, combined metric
strictly greater than the removed combination's, combined price strictly
below the freed budget — and must differ in codes from the removed
combination; consequently the run-final squad's total on that metric never
drops below the initial one, and the reported increase is exactly the
metric delta. -/
theorem c2_swap_monotonicity (poolFn : List Player → List Player) (r : ℕ)
    (spv : Bool) (squad : List Player) (hinv : SquadInv squad)
    (hnnsq : ValuesNonneg squad) (hnnpool : ∀ s, ValuesNonneg (poolFn s)) :
    (∀ sq, try_rows squad (squad_optimisations r spv squad (poolFn squad)) =
        .ok (some sq) → metricTotal spv squad < metricTotal spv sq) ∧
    (∀ fuel increase S inc fin,
      optimiser_run poolFn r spv fuel squad increase = .ok (S, inc, fin) →
      metricTotal spv squad ≤ metricTotal spv S ∧
      inc - increase = metricTotal spv S - metricTotal spv squad) := by
  constructor
  · intro sq hsq
    rcases try_rows_spec hinv hnnsq (hnnpool squad)
        (squad_optimisations r spv squad (poolFn squad))
        (fun row hr => opts_row_ok hr) with
      hnone | ⟨sq', hcommit, -, -, hlt⟩
    · rw [hsq] at hnone
      injection hnone with h
      exact Option.noConfusion h
    · rw [hsq] at hcommit
      injection hcommit with h
      injection h with h
      subst h
      exact hlt
  · intro fuel increase S inc fin hrun
    obtain ⟨S', inc', fin', hrun', -, -, hle, hinc⟩ :=
      optimiser_run_spec poolFn r spv hnnpool fuel squad increase hinv hnnsq
    rw [hrun] at hrun'
    injection hrun' with h
    simp only [Prod.mk.injEq] at h
    obtain ⟨hS, hi, -⟩ := h
    subst hS
    subst hi
    exact ⟨hle, hinc⟩

/-- A two-player squad (goalkeeper and defender, different teams, total
price 200, total score 2). -/
def c2Squad : List Player :=
  [⟨1, "a", .GK, 100, 1, 1, "TA"⟩, ⟨2, "b", .DEF, 100, 1, 1, "TB"⟩]

/-- A pool pair with the same position signature, score total 10 and price
total 100 — an improving affordable swap for `c2Squad`. -/
def c2Pool : List Player :=
  [⟨3, "c", .GK, 50, 5, 1, "TC"⟩, ⟨4, "d", .DEF, 50, 5, 1, "TD"⟩]

theorem c2_swap_monotonicity_witness :
    try_rows c2Squad (squad_optimisations 2 false c2Squad c2Pool) =
      .ok (some c2Pool) ∧
    metricTotal false c2Squad < metricTotal false c2Pool :=
  ⟨rfl,
    (c2_swap_monotonicity (fun _ => c2Pool) 2 false c2Squad (by decide)
      (by decide) (fun s => (by decide : ValuesNonneg c2Pool))).1 c2Pool rfl⟩

/-- C5: during an optimiser run from an invariant-satisfying squad, the
filter conditions make `PositionFilled` and `NotEnoughMoney` unreachable in
the add loop, so any add failure on an optimisation row is `AlreadySelected`
or `MaxedOutTeam` — exactly the two caught by the `except` clause — and on
such a failure the row loop abandons the attempt and moves to the next row
with the squad unchanged (the additions went to a throwaway copy); hence
the run always returns normally and no roster-mutation error ever reaches
the caller of `optimiser`. -/
theorem c5_failures_recoverable (poolFn : List Player → List Player) (r : ℕ)
    (spv : Bool) (squad : List Player) (hinv : SquadInv squad)
    (hnnsq : ValuesNonneg squad) (hnnpool : ∀ s, ValuesNonneg (poolFn s)) :
    (∀ row ∈ squad_optimisations r spv squad (poolFn squad), ∀ e,
      try_add_combo (commitTest squad row) row.addCombo = .error e →
      (e = .AlreadySelected ∨ e = .MaxedOutTeam) ∧
      ∀ rest, try_rows squad (row :: rest) = try_rows squad rest) ∧
    (∀ fuel increase, ∃ S inc fin,
      optimiser_run poolFn r spv fuel squad increase = .ok (S, inc, fin)) := by
  constructor
  · intro row hrow e htac
    obtain ⟨hp, hb, hnn⟩ :=
      row_add_hyps hinv hnnsq (hnnpool squad) (opts_row_ok hrow)
    have he := try_add_combo_err hp hb hnn htac
    refine ⟨he, fun rest => ?_⟩
    rcases he with rfl | rfl <;> simp only [try_rows, htac]
  · intro fuel increase
    obtain ⟨S, inc, fin, hrun, -, -, -, -⟩ :=
      optimiser_run_spec poolFn r spv hnnpool fuel squad increase hinv hnnsq
    exact ⟨S, inc, fin, hrun⟩

/-- A three-player squad already holding two players of team "TT". -/
def c5Squad : List Player :=
  [⟨1, "a", .GK, 100, 1, 1, "TT"⟩, ⟨2, "b", .DEF, 100, 1, 1, "TT"⟩,
   ⟨5, "e", .MID, 100, 9, 1, "TM"⟩]

/-- A pool pair both of team "TT": the swap frees one "TT" slot but tries to
add two, so the second `add_player` raises `MaxedOutTeam`, which the loop
catches. -/
def c5Pool : List Player :=
  [⟨3, "c", .GK, 50, 5, 1, "TT"⟩, ⟨4, "d", .DEF, 50, 5, 1, "TT"⟩]

theorem c5_failures_recoverable_witness :
    ∃ S inc fin,
      optimiser_run (fun _ => c5Pool) 2 false 3 c5Squad 0 = .ok (S, inc, fin) :=
  (c5_failures_recoverable (fun _ => c5Pool) 2 false c5Squad (by decide)
    (by decide) (fun s => (by decide : ValuesNonneg c5Pool))).2 3 0

/-- C6: if an optimiser run terminated because a full pass found no
improving swap (the flag recording the `return` at optimiser.py line 115),
the final squad admits an empty optimisation frame, so immediately
re-running the optimiser on that squad and pool performs no mutation and
reports a zero score increase: it returns at once with the same squad and
increase 0. -/
theorem c6_rerun_noop (poolFn : List Player → List Player) (r : ℕ)
    (spv : Bool) {fuel : ℕ} {squad : List Player} {inc0 : Int}
    {S : List Player} {inc : Int}
    (hterm : optimiser_run poolFn r spv fuel squad inc0 = .ok (S, inc, true)) :
    ∀ m : ℕ, optimiser_run poolFn r spv (m + 1) S 0 = .ok (S, 0, true) := by
  have hempty := optimiser_run_terminated poolFn r spv hterm
  intro m
  simp [optimiser_run, hempty]

/-- A squad/pool state on which the optimiser terminates at once with no
improving swap: `c5Squad` against a pool whose only pair is not improving
(scores 0). -/
def c6Pool : List Player :=
  [⟨3, "c", .GK, 50, 0, 0, "TC"⟩, ⟨4, "d", .DEF, 50, 0, 0, "TD"⟩]

theorem c6_rerun_noop_witness :
    optimiser_run (fun _ => c6Pool) 2 false 4 c2Squad 0 =
      .ok (c2Squad, 0, true) ∧
    optimiser_run (fun _ => c6Pool) 2 false 1 c2Squad 0 =
      .ok (c2Squad, 0, true) :=
  ⟨rfl, c6_rerun_noop (fun _ => c6Pool) 2 false
    (show optimiser_run (fun _ => c6Pool) 2 false 4 c2Squad 0 =
      .ok (c2Squad, 0, true) from rfl) 0⟩

namespace SquadBuilder

/-- Sort key of `df.sort_values(by=["score", "score_per_value"],
ascending=False)` in `pick_first_team` (squad_builder.py line 186). -/
def ftLe (a b : Player) : Bool :=
  if a.score ≠ b.score then decide (b.score < a.score)
  else decide (b.score_per_value ≤ a.score_per_value)

/-- `max_pos_picks = {"GK": 1, "DEF": 5, "MID": 5, "FWD": 5}` (line 187). -/
def max_pos_picks : Position → ℕ
  | .GK => 1
  | .DEF => 5
  | .MID => 5
  | .FWD => 5

/-- One iteration body of the greedy pick (lines 191-196): append the row if
its position is below the cap. -/
def greedyStep (ft : List Player) (p : Player) : List Player :=
  if posCount ft p.position < max_pos_picks p.position then ft ++ [p] else ft

/-- The greedy loop of `pick_first_team` (lines 190-198): iterate the sorted
rows, appending under the caps, breaking as soon as 11 rows are picked (the
break check runs at the bottom of each iteration). -/
def greedy11 : List Player → List Player → List Player
  | [], ft => ft
  | p :: rest, ft =>
    if (greedyStep ft p).length = 11 then greedyStep ft p
    else greedy11 rest (greedyStep ft p)

/-- The `missing` list (line 201): positions with zero picked rows, in the
insertion order of the `max_pos_picks` dict — GK, DEF, MID, FWD. -/
def missing_positions (ft : List Player) : List Position :=
  [Position.GK, .DEF, .MID, .FWD].filter (fun q => decide (posCount ft q = 0))

/-- `SquadBuilder.pick_first_team` (squad_builder.py lines 183-215): sort the
squad by (score, score_per_value) descending, greedily pick up to 11 under
`max_pos_picks`, and when some position has no pick, drop the lowest-ranked
non-keeper picked and append the squad's best player of the first missing
position (the repair loop appends at most that one row, and appends nothing
when the squad has no player of that position).  `Option.none` models the
`IndexError` Python would raise if the picked team held no non-keeper to
evict. -/
def pick_first_team (squad : List Player) : Option (List Player) :=
  let df := insSort ftLe squad
  let ft := greedy11 df []
  match missing_positions ft with
  | [] => some ft
  | q :: _ =>
    match (insSort ftLe
        (ft.filter (fun p => decide (p.position ≠ Position.GK)))).getLast? with
    | Option.none => Option.none
    | some worst =>
      match (insSort ftLe (df.filter (fun p => decide (p.position = q)))).head? with
      | Option.none => some (ft.filter (fun p => decide (p.code ≠ worst.code)))
      | some best =>
        some (ft.filter (fun p => decide (p.code ≠ worst.code)) ++ [best])

theorem greedy11_length_le (df : List Player) :
    ∀ ft : List Player, ft.length ≤ 10 → (greedy11 df ft).length ≤ 11 := by
  induction df with
  | nil =>
    intro ft h
    unfold greedy11
    omega
  | cons p rest ih =>
    intro ft h
    have hstep : (greedyStep ft p).length ≤ ft.length + 1 := by
      unfold greedyStep
      split
      · simp
      · omega
    unfold greedy11
    split
    · next heq => omega
    · next hne =>
      apply ih
      omega

theorem greedy11_caps (df : List Player) :
    ∀ ft : List Player, (∀ q : Position, posCount ft q ≤ max_pos_picks q) →
      ∀ q : Position, posCount (greedy11 df ft) q ≤ max_pos_picks q := by
  induction df with
  | nil =>
    intro ft h q
    exact h q
  | cons p rest ih =>
    intro ft h q
    have hstep : ∀ q' : Position,
        posCount (greedyStep ft p) q' ≤ max_pos_picks q' := by
      intro q'
      unfold greedyStep
      split
      · next hlt =>
        rw [posCount_append]
        rcases eq_or_ne p.position q' with rfl | hq
        · have h2 : posCount [p] p.position ≤ 1 := List.countP_le_length _
          omega
        · have h2 : posCount [p] q' = 0 := by
            simp [posCount, List.countP_cons, hq]
          have := h q'
          omega
      · exact h q'
    unfold greedy11
    split
    · exact hstep q
    · exact ih (greedyStep ft p) hstep q

theorem greedy11_sublist (df : List Player) :
    ∀ ft : List Player,
      ∃ s : List Player, greedy11 df ft = ft ++ s ∧ s.Sublist df := by
  induction df with
  | nil =>
    intro ft
    exact ⟨[], by simp [greedy11], List.nil_sublist _⟩
  | cons p rest ih =>
    intro ft
    unfold greedy11
    by_cases hadd : posCount ft p.position < max_pos_picks p.position
    · have hstep : greedyStep ft p = ft ++ [p] := by
        unfold greedyStep
        rw [if_pos hadd]
      rw [hstep]
      split
      · exact ⟨[p], rfl, (List.nil_sublist rest).cons₂ p⟩
      · obtain ⟨s, hs, hsub⟩ := ih (ft ++ [p])
        exact ⟨p :: s, by rw [hs]; simp, hsub.cons₂ p⟩
    · have hstep : greedyStep ft p = ft := by
        unfold greedyStep
        rw [if_neg hadd]
      rw [hstep]
      split
      · exact ⟨[], by simp, List.nil_sublist _⟩
      · obtain ⟨s, hs, hsub⟩ := ih ft
        exact ⟨s, hs, hsub.cons p⟩

theorem greedy11_saturate (df : List Player) :
    ∀ ft : List Player, (∀ q : Position, posCount ft q ≤ max_pos_picks q) →
      (greedy11 df ft).length = 11 ∨
      ∀ q : Position, posCount (greedy11 df ft) q =
        min (posCount ft q + posCount df q) (max_pos_picks q) := by
  induction df with
  | nil =>
    intro ft h
    right
    intro q
    unfold greedy11
    have h0 : posCount ([] : List Player) q = 0 := rfl
    have := h q
    omega
  | cons p rest ih =>
    intro ft h
    by_cases hadd : posCount ft p.position < max_pos_picks p.position
    · have hstep : greedyStep ft p = ft ++ [p] := by
        unfold greedyStep
        rw [if_pos hadd]
      unfold greedy11
      rw [hstep]
      split
      · next hlen => exact Or.inl hlen
      · next hlen =>
        have hft2 : ∀ q : Position, posCount (ft ++ [p]) q ≤ max_pos_picks q := by
          intro q
          rw [posCount_append]
          rcases eq_or_ne p.position q with rfl | hq
          · have h2 : posCount [p] p.position ≤ 1 := List.countP_le_length _
            omega
          · have h2 : posCount [p] q = 0 := by
              simp [posCount, List.countP_cons, hq]
            have := h q
            omega
        rcases ih (ft ++ [p]) hft2 with hl | hr
        · exact Or.inl hl
        · right
          intro q
          rw [hr q, posCount_append]
          have hp1 : posCount [p] q = if p.position = q then 1 else 0 := by
            simp [posCount, List.countP_cons]
          have hp2 := posCount_cons p rest q
          omega
    · have hstep : greedyStep ft p = ft := by
        unfold greedyStep
        rw [if_neg hadd]
      unfold greedy11
      rw [hstep]
      split
      · next hlen => exact Or.inl hlen
      · next hlen =>
        rcases ih ft h with hl | hr
        · exact Or.inl hl
        · right
          intro q
          rw [hr q]
          have hcap : posCount ft p.position = max_pos_picks p.position := by
            have := h p.position
            omega
          have hp2 := posCount_cons p rest q
          rcases eq_or_ne p.position q with rfl | hq
          · simp only [if_pos rfl] at hp2
            omega
          · simp only [if_neg hq] at hp2
            omega

theorem length_eq_sum_posCount (l : List Player) :
    l.length =
      posCount l .GK + posCount l .DEF + posCount l .MID + posCount l .FWD := by
  induction l with
  | nil => rfl
  | cons p rest ih =>
    rw [List.length_cons, ih, posCount_cons, posCount_cons, posCount_cons,
      posCount_cons]
    cases p.position <;> simp <;> omega

theorem filter_ne_GK_length (l : List Player) :
    (l.filter (fun p => decide (p.position ≠ Position.GK))).length +
      posCount l .GK = l.length := by
  induction l with
  | nil => rfl
  | cons p rest ih =>
    rw [posCount_cons]
    by_cases hp : p.position = Position.GK
    · rw [List.filter_cons_of_neg (by simp [hp])]
      rw [if_pos hp, List.length_cons]
      omega
    · rw [List.filter_cons_of_pos (by simp [hp])]
      rw [if_neg hp, List.length_cons, List.length_cons]
      omega

end SquadBuilder

theorem posCount_singleton (x : Player) (q : Position) :
    posCount [x] q = if x.position = q then 1 else 0 := by
  simp [posCount, List.countP_cons]

theorem getLast?_mem {l : List α} {a : α} (h : l.getLast? = some a) : a ∈ l := by
  induction l with
  | nil => cases h
  | cons x xs ih =>
    cases hxs : xs with
    | nil =>
      rw [hxs] at h
      simp only [List.getLast?_singleton, Option.some.injEq] at h
      subst h
      exact List.mem_cons_self x []
    | cons y ys =>
      rw [hxs] at h
      rw [List.getLast?_cons_cons] at h
      rw [← hxs] at h
      rw [← hxs]
      exact List.mem_cons_of_mem x (ih h)

/-- Removing the row with a held code is, up to permutation, removing that
one player (squad codes are distinct). -/
theorem remove_one_perm {l : List Player} {a : Player} (hnd : (codes l).Nodup)
    (ha : a ∈ l) :
    l.filter (fun p => decide (p.code ≠ a.code)) ++ [a] ~ l := by
  have hsub : [a].Sublist l := List.singleton_sublist.mpr ha
  have hmain := filter_codes_append_perm hsub hnd
  have hcongr : l.filter (fun p => decide (p.code ∉ codes [a])) =
      l.filter (fun p => decide (p.code ≠ a.code)) := by
    apply List.filter_congr
    intro p _
    simp [codes, decide_eq_decide]
  rw [hcongr] at hmain
  exact hmain

/-- C7: on any full 15-player squad (which under the Roster invariants holds
exactly 2 GK / 5 DEF / 5 MID / 3 FWD) with distinct codes,
`pick_first_team` returns a starting eleven with exactly one goalkeeper; at
most one position can be left empty by the greedy top-11 pick, so the
repair step runs at most once; and when the greedy pick chooses no forward
the repaired eleven contains at least one forward. -/
theorem c7_starting_eleven (squad : List Player)
    (hGK : posCount squad .GK = 2) (hDEF : posCount squad .DEF = 5)
    (hMID : posCount squad .MID = 5) (hFWD : posCount squad .FWD = 3)
    (hnd : (codes squad).Nodup) :
    ∃ ft, SquadBuilder.pick_first_team squad = some ft ∧ ft.length = 11 ∧
      posCount ft .GK = 1 ∧
      (SquadBuilder.missing_positions
        (SquadBuilder.greedy11 (insSort SquadBuilder.ftLe squad) [])).length ≤ 1 ∧
      (posCount (SquadBuilder.greedy11 (insSort SquadBuilder.ftLe squad) [])
          .FWD = 0 →
        1 ≤ posCount ft .FWD) := by
  unfold SquadBuilder.pick_first_team
  dsimp only
  have hdfperm : insSort SquadBuilder.ftLe squad ~ squad := insSort_perm _ _
  generalize hdf : insSort SquadBuilder.ftLe squad = df at hdfperm ⊢
  have hdGK : posCount df .GK = 2 := by rw [posCount_perm hdfperm]; exact hGK
  have hdDEF : posCount df .DEF = 5 := by rw [posCount_perm hdfperm]; exact hDEF
  have hdMID : posCount df .MID = 5 := by rw [posCount_perm hdfperm]; exact hMID
  have hdFWD : posCount df .FWD = 3 := by rw [posCount_perm hdfperm]; exact hFWD
  have hdnd : (codes df).Nodup := ((hdfperm.map _).nodup_iff).mpr hnd
  have hcaps := SquadBuilder.greedy11_caps df [] (fun q => Nat.zero_le _)
  have hsat := SquadBuilder.greedy11_saturate df [] (fun q => Nat.zero_le _)
  have hlenle := SquadBuilder.greedy11_length_le df [] (by simp)
  obtain ⟨s0, hs0, hsub0⟩ := SquadBuilder.greedy11_sublist df []
  generalize hft : SquadBuilder.greedy11 df [] = ft at hcaps hsat hlenle hs0 ⊢
  rw [List.nil_append] at hs0
  subst hs0
  have m1 : SquadBuilder.max_pos_picks .GK = 1 := rfl
  have m2 : SquadBuilder.max_pos_picks .DEF = 5 := rfl
  have m3 : SquadBuilder.max_pos_picks .MID = 5 := rfl
  have m4 : SquadBuilder.max_pos_picks .FWD = 5 := rfl
  have n1 : posCount ([] : List Player) .GK = 0 := rfl
  have n2 : posCount ([] : List Player) .DEF = 0 := rfl
  have n3 : posCount ([] : List Player) .MID = 0 := rfl
  have n4 : posCount ([] : List Player) .FWD = 0 := rfl
  have hftnd : (codes ft).Nodup := List.Nodup.sublist (hsub0.map Player.code) hdnd
  have hftle : ∀ q, posCount ft q ≤ posCount df q := fun q => hsub0.countP_le _
  have hlen11 : ft.length = 11 := by
    rcases hsat with hl | hr
    · exact hl
    · exfalso
      have hfull := SquadBuilder.length_eq_sum_posCount ft
      have e1 := hr .GK
      have e2 := hr .DEF
      have e3 := hr .MID
      have e4 := hr .FWD
      omega
  have hsum : posCount ft .GK + posCount ft .DEF + posCount ft .MID +
      posCount ft .FWD = 11 := by
    have := SquadBuilder.length_eq_sum_posCount ft
    omega
  have hGKle : posCount ft .GK ≤ 1 := by have := hcaps .GK; omega
  have hDEFle : posCount ft .DEF ≤ 5 := by have := hcaps .DEF; omega
  have hMIDle : posCount ft .MID ≤ 5 := by have := hcaps .MID; omega
  have hFWDle : posCount ft .FWD ≤ 3 := by have := hftle .FWD; omega
  rcases Nat.le_one_iff_eq_zero_or_eq_one.mp hGKle with hGK0 | hGK1
  · -- the greedy eleven has no goalkeeper; every outfield position is hit
    have hD1 : 1 ≤ posCount ft .DEF := by omega
    have hM1 : 1 ≤ posCount ft .MID := by omega
    have hF1 : 1 ≤ posCount ft .FWD := by omega
    have hmiss : SquadBuilder.missing_positions ft = [.GK] := by
      unfold SquadBuilder.missing_positions
      rw [List.filter_cons_of_pos (by simp [hGK0]),
        List.filter_cons_of_neg (by simp; omega),
        List.filter_cons_of_neg (by simp; omega),
        List.filter_cons_of_neg (by simp; omega)]
      rfl
    have hallnotGK : ∀ p ∈ ft, p.position ≠ Position.GK := by
      intro p hp
      have h2 := List.countP_eq_zero.mp hGK0 p hp
      simpa using h2
    have hfilter_eq : ft.filter (fun p => decide (p.position ≠ Position.GK)) = ft :=
      List.filter_eq_self.mpr (fun p hp => by simpa using hallnotGK p hp)
    have hsortperm : insSort SquadBuilder.ftLe ft ~ ft := insSort_perm _ _
    obtain ⟨worst, hworst⟩ :
        ∃ w, (insSort SquadBuilder.ftLe ft).getLast? = some w := by
      cases hg : (insSort SquadBuilder.ftLe ft).getLast? with
      | none =>
        exfalso
        have hnil := List.getLast?_eq_none_iff.mp hg
        have := hsortperm.length_eq
        rw [hnil] at this
        simp only [List.length_nil] at this
        omega
      | some w => exact ⟨w, rfl⟩
    have hwmem : worst ∈ ft := hsortperm.mem_iff.mp (getLast?_mem hworst)
    have hwnotGK : worst.position ≠ Position.GK := hallnotGK worst hwmem
    have hperm2 := remove_one_perm hftnd hwmem
    have hlen2 : (ft.filter (fun p => decide (p.code ≠ worst.code))).length = 10 := by
      have := hperm2.length_eq
      simp only [List.length_append, List.length_singleton] at this
      omega
    have hGK2 : posCount (ft.filter (fun p => decide (p.code ≠ worst.code))) .GK = 0 := by
      have hc := posCount_perm hperm2 .GK
      rw [posCount_append, posCount_singleton] at hc
      rw [if_neg hwnotGK] at hc
      omega
    have haddlen :
        (df.filter (fun p => decide (p.position = Position.GK))).length = 2 := by
      have := List.countP_eq_length_filter
        (fun p => decide (p.position = Position.GK)) df
      have h2 : posCount df .GK = 2 := hdGK
      unfold posCount at h2
      omega
    have hsort3perm :
        insSort SquadBuilder.ftLe (df.filter (fun p => decide (p.position = Position.GK))) ~
          df.filter (fun p => decide (p.position = Position.GK)) := insSort_perm _ _
    obtain ⟨best, hbest⟩ : ∃ b, (insSort SquadBuilder.ftLe
        (df.filter (fun p => decide (p.position = Position.GK)))).head? = some b := by
      cases hh : (insSort SquadBuilder.ftLe
          (df.filter (fun p => decide (p.position = Position.GK)))).head? with
      | none =>
        exfalso
        have hnil := List.head?_eq_none_iff.mp hh
        have := hsort3perm.length_eq
        rw [hnil] at this
        simp only [List.length_nil] at this
        omega
      | some b => exact ⟨b, rfl⟩
    have hbestmem : best ∈ df.filter (fun p => decide (p.position = Position.GK)) :=
      hsort3perm.mem_iff.mp (head?_mem hbest)
    have hbestGK : best.position = Position.GK := by
      have := (List.mem_filter.mp hbestmem).2
      simpa using this
    refine ⟨ft.filter (fun p => decide (p.code ≠ worst.code)) ++ [best],
      ?_, ?_, ?_, ?_, ?_⟩
    · simp only [hmiss, hfilter_eq, hworst, hbest]
    · rw [List.length_append, List.length_singleton]
      omega
    · rw [posCount_append, posCount_singleton, if_pos hbestGK]
      omega
    · rw [hmiss]
      simp
    · intro hc
      omega
  · -- the greedy eleven has exactly one goalkeeper
    have hD1 : 1 ≤ posCount ft .DEF := by omega
    have hM1 : 1 ≤ posCount ft .MID := by omega
    rcases Nat.eq_zero_or_pos (posCount ft .FWD) with hF0 | hF1
    · -- no forward picked: the claim's Scenario E
      have hmiss : SquadBuilder.missing_positions ft = [.FWD] := by
        unfold SquadBuilder.missing_positions
        rw [List.filter_cons_of_neg (by simp; omega),
          List.filter_cons_of_neg (by simp; omega),
          List.filter_cons_of_neg (by simp; omega),
          List.filter_cons_of_pos (by simp [hF0])]
        rfl
      have hnonGKlen :
          (ft.filter (fun p => decide (p.position ≠ Position.GK))).length = 10 := by
        have := SquadBuilder.filter_ne_GK_length ft
        omega
      have hsortperm : insSort SquadBuilder.ftLe
          (ft.filter (fun p => decide (p.position ≠ Position.GK))) ~
            ft.filter (fun p => decide (p.position ≠ Position.GK)) := insSort_perm _ _
      obtain ⟨worst, hworst⟩ : ∃ w, (insSort SquadBuilder.ftLe
          (ft.filter (fun p => decide (p.position ≠ Position.GK)))).getLast? =
            some w := by
        cases hg : (insSort SquadBuilder.ftLe
            (ft.filter (fun p => decide (p.position ≠ Position.GK)))).getLast? with
        | none =>
          exfalso
          have hnil := List.getLast?_eq_none_iff.mp hg
          have := hsortperm.length_eq
          rw [hnil] at this
          simp only [List.length_nil] at this
          omega
        | some w => exact ⟨w, rfl⟩
      have hwmem2 : worst ∈ ft.filter (fun p => decide (p.position ≠ Position.GK)) :=
        hsortperm.mem_iff.mp (getLast?_mem hworst)
      have hwmem : worst ∈ ft := (List.mem_filter.mp hwmem2).1
      have hwnotGK : worst.position ≠ Position.GK := by
        have := (List.mem_filter.mp hwmem2).2
        simpa using this
      have hwnotFWD : worst.position ≠ Position.FWD := by
        have h2 := List.countP_eq_zero.mp hF0 worst hwmem
        simpa using h2
      have hperm2 := remove_one_perm hftnd hwmem
      have hlen2 : (ft.filter (fun p => decide (p.code ≠ worst.code))).length = 10 := by
        have := hperm2.length_eq
        simp only [List.length_append, List.length_singleton] at this
        omega
      have hGK2 : posCount (ft.filter (fun p => decide (p.code ≠ worst.code))) .GK = 1 := by
        have hc := posCount_perm hperm2 .GK
        rw [posCount_append, posCount_singleton] at hc
        rw [if_neg hwnotGK] at hc
        omega
      have hFWD2 : posCount (ft.filter (fun p => decide (p.code ≠ worst.code))) .FWD = 0 := by
        have hc := posCount_perm hperm2 .FWD
        rw [posCount_append, posCount_singleton] at hc
        rw [if_neg hwnotFWD] at hc
        omega
      have haddlen :
          (df.filter (fun p => decide (p.position = Position.FWD))).length = 3 := by
        have := List.countP_eq_length_filter
          (fun p => decide (p.position = Position.FWD)) df
        have h2 : posCount df .FWD = 3 := hdFWD
        unfold posCount at h2
        omega
      have hsort3perm :
          insSort SquadBuilder.ftLe (df.filter (fun p => decide (p.position = Position.FWD))) ~
            df.filter (fun p => decide (p.position = Position.FWD)) := insSort_perm _ _
      obtain ⟨best, hbest⟩ : ∃ b, (insSort SquadBuilder.ftLe
          (df.filter (fun p => decide (p.position = Position.FWD)))).head? = some b := by
        cases hh : (insSort SquadBuilder.ftLe
            (df.filter (fun p => decide (p.position = Position.FWD)))).head? with
        | none =>
          exfalso
          have hnil := List.head?_eq_none_iff.mp hh
          have := hsort3perm.length_eq
          rw [hnil] at this
          simp only [List.length_nil] at this
          omega
        | some b => exact ⟨b, rfl⟩
      have hbestmem : best ∈ df.filter (fun p => decide (p.position = Position.FWD)) :=
        hsort3perm.mem_iff.mp (head?_mem hbest)
      have hbestFWD : best.position = Position.FWD := by
        have := (List.mem_filter.mp hbestmem).2
        simpa using this
      have hbestnotGK : best.position ≠ Position.GK := by
        rw [hbestFWD]
        simp
      refine ⟨ft.filter (fun p => decide (p.code ≠ worst.code)) ++ [best],
        ?_, ?_, ?_, ?_, ?_⟩
      · simp only [hmiss, hworst, hbest]
      · rw [List.length_append, List.length_singleton]
        omega
      · rw [posCount_append, posCount_singleton, if_neg hbestnotGK]
        omega
      · rw [hmiss]
        simp
      · intro hc
        rw [posCount_append, posCount_singleton, if_pos hbestFWD]
        omega
    · -- every position has a pick: no repair needed
      have hmiss : SquadBuilder.missing_positions ft = [] := by
        unfold SquadBuilder.missing_positions
        rw [List.filter_cons_of_neg (by simp; omega),
          List.filter_cons_of_neg (by simp; omega),
          List.filter_cons_of_neg (by simp; omega),
          List.filter_cons_of_neg (by simp; omega)]
        rfl
      refine ⟨ft, ?_, hlen11, hGK1, ?_, ?_⟩
      · simp only [hmiss]
      · rw [hmiss]
        simp
      · intro hc
        omega

/-- A full 2/5/5/3 squad whose top eleven by score is one goalkeeper, five
defenders and five midfielders, so the greedy pick takes no forward. -/
def c7Squad : List Player :=
  [⟨1, "g1", .GK, 10, 100, 1, "t1"⟩, ⟨2, "g2", .GK, 10, 99, 1, "t2"⟩,
   ⟨3, "d1", .DEF, 10, 90, 1, "t3"⟩, ⟨4, "d2", .DEF, 10, 89, 1, "t4"⟩,
   ⟨5, "d3", .DEF, 10, 88, 1, "t5"⟩, ⟨6, "d4", .DEF, 10, 87, 1, "t6"⟩,
   ⟨7, "d5", .DEF, 10, 86, 1, "t7"⟩, ⟨8, "m1", .MID, 10, 85, 1, "t8"⟩,
   ⟨9, "m2", .MID, 10, 84, 1, "t9"⟩, ⟨10, "m3", .MID, 10, 83, 1, "t10"⟩,
   ⟨11, "m4", .MID, 10, 82, 1, "t11"⟩, ⟨12, "m5", .MID, 10, 81, 1, "t12"⟩,
   ⟨13, "f1", .FWD, 10, 3, 1, "t13"⟩, ⟨14, "f2", .FWD, 10, 2, 1, "t14"⟩,
   ⟨15, "f3", .FWD, 10, 1, 1, "t15"⟩]

theorem c7_starting_eleven_witness :
    posCount (SquadBuilder.greedy11 (insSort SquadBuilder.ftLe c7Squad) [])
        .FWD = 0 ∧
    (∃ ft, SquadBuilder.pick_first_team c7Squad = some ft ∧ ft.length = 11 ∧
      posCount ft .GK = 1 ∧
      (SquadBuilder.missing_positions
        (SquadBuilder.greedy11 (insSort SquadBuilder.ftLe c7Squad) [])).length ≤ 1 ∧
      (posCount (SquadBuilder.greedy11 (insSort SquadBuilder.ftLe c7Squad) [])
          .FWD = 0 →
        1 ≤ posCount ft .FWD)) :=
  ⟨by decide, c7_starting_eleven c7Squad (by decide) (by decide) (by decide)
    (by decide) (by decide)⟩
